import Mathlib

/-!
# pdf-margin-bleed-inspector: margin detection, unit conversion, uniformity

A shallow embedding of `src/app.js` (class `PDFMarginInspector`) and the
properties of it that the specification states.

Conventions of the embedding

* Canvas sizes, pixel indices and pixel offsets are natural numbers.
* The pixel buffer `imageData.data` is a list of channel values; a read past
  its end is `none`, the counterpart of JavaScript's `undefined`, and every
  comparison with `undefined` is false.
* A counted `for` loop is a traversal of `List.range n` (reversed for a
  descending loop); a labelled `break` out of a nested loop is the first
  element of the outer traversal for which the inner traversal finds a hit.
* Texts are strings; the exports are modelled up to the value handed to
  `Blob` (the CSV text) and to `JSON.stringify` (the data object).
-/

namespace PDFMarginInspector

/-! ## Content-boundary detector (`detectMargins`, app.js 163-227) -/

/-- Comparison `v > n` for a channel read that may be `undefined`. -/
def jsGt (v : Option Nat) (n : Nat) : Bool :=
  match v with
  | some c => decide (c > n)
  | none => false

/-- Comparison `v < n` for a channel read that may be `undefined`. -/
def jsLt (v : Option Nat) (n : Nat) : Bool :=
  match v with
  | some c => decide (c < n)
  | none => false

/-- The arrow function `isContent` of app.js 168-171. -/
def isContent (r g b a : Option Nat) : Bool :=
  let threshold := 250
  jsGt a 10 && (jsLt r threshold || jsLt g threshold || jsLt b threshold)

/-- The loop body shared by the four scans: `idx = (y * width + x) * 4`, then
`isContent(data[idx], data[idx + 1], data[idx + 2], data[idx + 3])`. -/
def contentAt (data : List Nat) (width x y : Nat) : Bool :=
  let idx := (y * width + x) * 4
  isContent data[idx]? data[idx + 1]? data[idx + 2]? data[idx + 3]?

/-- Inner loop of the top and bottom scans: `for (x = 0; x < width; x++)`,
true when some column of row `y` holds content. -/
def rowHit (data : List Nat) (width y : Nat) : Bool :=
  (List.range width).any (fun x => contentAt data width x y)

/-- Inner loop of the left and right scans: `for (y = 0; y < height; y++)`,
true when some row of column `x` holds content. -/
def colHit (data : List Nat) (width height x : Nat) : Bool :=
  (List.range height).any (fun y => contentAt data width x y)

/-- The record returned by `detectMargins`. -/
structure PixelMargins where
  top : Nat
  bottom : Nat
  left : Nat
  right : Nat
  deriving DecidableEq, Repr

/-- Scan `outerTop` (app.js 174-183): `topMargin` starts at 0 and is set to
the first row, counting up, that holds content. -/
def topMargin (data : List Nat) (width height : Nat) : Nat :=
  match (List.range height).find? (fun y => rowHit data width y) with
  | some y => y
  | none => 0

/-- Scan `outerBottom` (app.js 186-195): rows are visited from `height - 1`
down to 0; the first hit sets `bottomMargin = height - y - 1`. -/
def bottomMargin (data : List Nat) (width height : Nat) : Nat :=
  match (List.range height).reverse.find? (fun y => rowHit data width y) with
  | some y => height - y - 1
  | none => 0

/-- Scan `outerLeft` (app.js 198-207). -/
def leftMargin (data : List Nat) (width height : Nat) : Nat :=
  match (List.range width).find? (fun x => colHit data width height x) with
  | some x => x
  | none => 0

/-- Scan `outerRight` (app.js 210-219): columns are visited from `width - 1`
down to 0; the first hit sets `rightMargin = width - x - 1`. -/
def rightMargin (data : List Nat) (width height : Nat) : Nat :=
  match (List.range width).reverse.find? (fun x => colHit data width height x) with
  | some x => width - x - 1
  | none => 0

/-- Method `detectMargins(context, width, height)`; `data` is
`context.getImageData(0, 0, width, height).data`. -/
def detectMargins (data : List Nat) (width height : Nat) : PixelMargins :=
  { top := topMargin data width height
    bottom := bottomMargin data width height
    left := leftMargin data width height
    right := rightMargin data width height }

/-- A white, fully visible canvas of `width * height` pixels with one black
pixel at `(px, py)`. -/
def singlePixelBuffer (width height px py : Nat) : List Nat :=
  (List.range (width * height * 4)).map
    (fun i => if i / 4 = py * width + px ∧ i % 4 ≠ 3 then 0 else 255)


/-! ## JavaScript numbers

A finite IEEE-754 binary64 value is the rational number it denotes. Every
arithmetic operation computes the exact rational result and rounds it to the
nearest value with a 53-bit significand, ties to even (`roundDouble`). The
exponent range is not bounded: overflow to `Infinity` and gradual underflow
lie beyond 1.8e308 and below 2.2e-308, far from any pixel count or page size.
Values that are only stored and compared (the two settings) are `JSNumber`s,
which also cover `NaN` and the two infinities. -/

/-- Nearest integer, ties to the even one. -/
def roundHalfEven (x : ℚ) : ℤ :=
  if x - ⌊x⌋ < 1 / 2 then ⌊x⌋
  else if 1 / 2 < x - ⌊x⌋ then ⌊x⌋ + 1
  else if ⌊x⌋ % 2 = 0 then ⌊x⌋ else ⌊x⌋ + 1

/-- The binary exponent `e` with `2^e ≤ |x| < 2^(e+1)` (0 for `x = 0`). -/
def binade (x : ℚ) : ℤ := Int.log 2 |x|

/-- Spacing of the binary64 values in the binade of `x`. -/
def ulp (x : ℚ) : ℚ := 2 ^ (binade x - 52)

/-- Round a rational to the nearest binary64 value, ties to even. -/
def roundDouble (x : ℚ) : ℚ := roundHalfEven (x / ulp x) * ulp x

/-- JavaScript `a + b` on finite numbers. -/
def numAdd (a b : ℚ) : ℚ := roundDouble (a + b)

/-- JavaScript `a - b` on finite numbers. -/
def numSub (a b : ℚ) : ℚ := roundDouble (a - b)

/-- JavaScript `a * b` on finite numbers. -/
def numMul (a b : ℚ) : ℚ := roundDouble (a * b)

/-- JavaScript `a / b` on finite numbers, for a non-zero divisor. -/
def numDiv (a b : ℚ) : ℚ := roundDouble (a / b)

/-- A JavaScript number that may be `NaN` or infinite. -/
inductive JSNumber where
  | nan
  | posInf
  | negInf
  | fin (q : ℚ)
  deriving DecidableEq

/-- JavaScript `a <= b`. -/
def jsLe : JSNumber → JSNumber → Bool
  | .nan, _ => false
  | _, .nan => false
  | .negInf, _ => true
  | _, .posInf => true
  | .posInf, _ => false
  | .fin _, .negInf => false
  | .fin a, .fin b => decide (a ≤ b)

/-- JavaScript `a - b`. -/
def jsSub : JSNumber → JSNumber → JSNumber
  | .nan, _ => .nan
  | _, .nan => .nan
  | .posInf, .posInf => .nan
  | .negInf, .negInf => .nan
  | .posInf, _ => .posInf
  | .negInf, _ => .negInf
  | .fin _, .posInf => .negInf
  | .fin _, .negInf => .posInf
  | .fin a, .fin b => .fin (numSub a b)

/-- Builtin `Math.max(...values)`: `-Infinity` for no arguments. -/
def mathMax : List ℚ → JSNumber
  | [] => .negInf
  | v :: vs => .fin (vs.foldl max v)

/-- Builtin `Math.min(...values)`: `Infinity` for no arguments. -/
def mathMin : List ℚ → JSNumber
  | [] => .posInf
  | v :: vs => .fin (vs.foldl min v)

/-- The text `x.toFixed(2)` of a finite number below 1e21: an optional minus
sign and the decimal digits of `cents / 100`. -/
structure Fixed2 where
  neg : Bool
  cents : Nat
  deriving DecidableEq, Repr

/-- Method `x.toFixed(2)` for finite `x`: a negative `x` is negated and signed; the
integer `n` with `n / 100` nearest to `x` is chosen, the larger on a tie. The
choice is made on the exact value of `x`. -/
def toFixed2 (x : ℚ) : Fixed2 :=
  { neg := decide (x < 0), cents := ⌊|x| * 100 + 1 / 2⌋₊ }

/-- Builtin `parseFloat` of a `toFixed(2)` text: the double nearest to the decimal. -/
def parseFixed2 (s : Fixed2) : ℚ :=
  roundDouble (if s.neg then -((s.cents : ℚ) / 100) else (s.cents : ℚ) / 100)

/-- The text `x.toFixed(2)` of any number. -/
inductive NumStr where
  | nan
  | inf (neg : Bool)
  | dec (d : Fixed2)
  deriving DecidableEq

/-- Method `x.toFixed(2)` for any number: non-finite values print as `NaN`,
`Infinity`, `-Infinity`. -/
def jsToFixed2 : JSNumber → NumStr
  | .nan => .nan
  | .posInf => .inf false
  | .negInf => .inf true
  | .fin q => .dec (toFixed2 q)

/-- The literal `0.3527778` (millimetres per point). -/
def mmPerPoint : ℚ := roundDouble (3527778 / 10000000)

/-! ## Page analyzer (`analyzePage`, app.js 108-161) -/

/-- What the PDF library hands to `analyzePage` for one page: `page.view`,
the viewport's `scale`, the canvas size set from the viewport, and the pixel
buffer read back after rendering. The viewport is requested with
`scale: 2.0`; `scale` is positive. -/
structure RenderedPage where
  view0 : ℚ
  view1 : ℚ
  view2 : ℚ
  view3 : ℚ
  scale : ℚ
  width : Nat
  height : Nat
  data : List Nat

/-- The field `margins` of a page result. -/
structure Margins where
  top : Fixed2
  bottom : Fixed2
  left : Fixed2
  right : Fixed2
  deriving DecidableEq

/-- The field `bleed` of a page result. -/
structure Bleed where
  size : JSNumber
  hasTopBleed : Bool
  hasBottomBleed : Bool
  hasLeftBleed : Bool
  hasRightBleed : Bool
  deriving DecidableEq

/-- The field `trimArea` of a page result. -/
structure TrimArea where
  width : Fixed2
  height : Fixed2
  deriving DecidableEq

/-- The object built by `analyzePage` (the `canvas` reference is left out). -/
structure PageResult where
  pageNumber : Nat
  pageWidth : Fixed2
  pageHeight : Fixed2
  margins : Margins
  bleed : Bleed
  trimArea : TrimArea
  margins_px : PixelMargins
  deriving DecidableEq

/-- The arrow function `pxToMm = (px) => (px / scale) * 0.3527778`. -/
def pxToMm (scale : ℚ) (px : Nat) : ℚ :=
  numMul (numDiv (px : ℚ) scale) mmPerPoint

/-- The synchronous part of `analyzePage`, after the page has been fetched and
rendered; `bleedSize` is `this.bleedSize`. -/
def analyzeRendered (bleedSize : JSNumber) (pageNum : Nat) (page : RenderedPage) :
    PageResult :=
  let pageWidth := numSub page.view2 page.view0
  let pageHeight := numSub page.view3 page.view1
  let margins := detectMargins page.data page.width page.height
  let scale := page.scale
  { pageNumber := pageNum
    pageWidth := toFixed2 (numMul pageWidth mmPerPoint)
    pageHeight := toFixed2 (numMul pageHeight mmPerPoint)
    margins :=
      { top := toFixed2 (pxToMm scale margins.top)
        bottom := toFixed2 (pxToMm scale margins.bottom)
        left := toFixed2 (pxToMm scale margins.left)
        right := toFixed2 (pxToMm scale margins.right) }
    bleed :=
      { size := bleedSize
        hasTopBleed := jsLe (.fin (pxToMm scale margins.top)) bleedSize
        hasBottomBleed := jsLe (.fin (pxToMm scale margins.bottom)) bleedSize
        hasLeftBleed := jsLe (.fin (pxToMm scale margins.left)) bleedSize
        hasRightBleed := jsLe (.fin (pxToMm scale margins.right)) bleedSize }
    trimArea :=
      { width := toFixed2 (numSub (numSub (numMul pageWidth mmPerPoint)
          (pxToMm scale margins.left)) (pxToMm scale margins.right))
        height := toFixed2 (numSub (numSub (numMul pageHeight mmPerPoint)
          (pxToMm scale margins.top)) (pxToMm scale margins.bottom)) }
    margins_px := margins }

/-- A loaded document: for each page number `1..numPages`, the rendered page,
or `none` when `getPage` or `render` rejects for that page. -/
structure PdfDoc where
  pages : List (Option RenderedPage)

/-- The property `numPages`. -/
def PdfDoc.numPages (doc : PdfDoc) : Nat := doc.pages.length

/-- The state of a `PDFMarginInspector` object. -/
structure Inspector where
  pdfDoc : Option PdfDoc
  analysisResults : List PageResult
  bleedSize : JSNumber
  marginThreshold : JSNumber

/-- The constructor (app.js 5-11). -/
def Inspector.new : Inspector :=
  { pdfDoc := none, analysisResults := [], bleedSize := .fin 3, marginThreshold := .fin 5 }

/-- Method `analyzePage(pageNum)`: fails when the page cannot be fetched or rendered. -/
def analyzePage (s : Inspector) (doc : PdfDoc) (pageNum : Nat) : Except String PageResult :=
  match doc.pages[pageNum - 1]? with
  | some (some page) => .ok (analyzeRendered s.bleedSize pageNum page)
  | _ => .error "render failure"

/-! ## Document run (`analyzePDF`, app.js 83-106) -/

/-- The loop `for (pageNum = 1; pageNum <= numPages; pageNum++)` inside the
`try` block, from page `pageNum` on with `fuel` pages left: each result is
pushed onto `analysisResults`; an exception leaves the loop. The flag tells
whether the loop ran to its end. -/
def analyzeLoop (doc : PdfDoc) : Nat → Nat → Inspector → Inspector × Bool
  | 0, _, s => (s, true)
  | fuel + 1, pageNum, s =>
    match analyzePage s doc pageNum with
    | .error _ => (s, false)
    | .ok result =>
      analyzeLoop doc fuel (pageNum + 1)
        { s with analysisResults := s.analysisResults ++ [result] }

/-- Method `analyzePDF()`: without a document the state is untouched; otherwise the
stored results are cleared and the pages analysed in order. The `catch` block
only reports the error. -/
def analyzePDF (s : Inspector) : Inspector :=
  match s.pdfDoc with
  | none => s
  | some doc =>
    (analyzeLoop doc doc.numPages 1 { s with analysisResults := [] }).1

/-! ## Settings (`initializeEventListeners`, app.js 53-60) -/

/-- The `change` listener of the bleed-size input: `parsed` is
`parseFloat(e.target.value)`, `NaN` for text that is not a number. -/
def onBleedSizeChange (s : Inspector) (parsed : JSNumber) : Inspector :=
  { s with bleedSize := parsed }

/-- The `change` listener of the margin-threshold input. -/
def onMarginThresholdChange (s : Inspector) (parsed : JSNumber) : Inspector :=
  { s with marginThreshold := parsed }


/-! ## Uniformity report (`displayUniformityReport`, app.js 237-326) -/

/-- The object `{ min, max, avg }` returned by `calculateStats`. -/
structure Stats where
  min : NumStr
  max : NumStr
  avg : NumStr
  deriving DecidableEq

/-- JavaScript `sum / n` for a finite `sum` and an array length `n`. -/
def divLength (sum : ℚ) (n : Nat) : JSNumber :=
  if n = 0 then
    (if sum = 0 then .nan else if 0 < sum then .posInf else .negInf)
  else .fin (numDiv sum (n : ℚ))

/-- Method `calculateStats(values)` (app.js 477-482); `reduce` adds from the left,
starting at 0. -/
def calculateStats (values : List ℚ) : Stats :=
  { min := jsToFixed2 (mathMin values)
    max := jsToFixed2 (mathMax values)
    avg := jsToFixed2 (divLength (values.foldl numAdd 0) values.length) }

/-- The arrow function `isUniform` (app.js 256-260) with its default
`threshold = this.marginThreshold`. -/
def isUniform (values : List ℚ) (threshold : JSNumber) : Bool :=
  jsLe (jsSub (mathMax values) (mathMin values)) threshold

/-- The object `stats` of the report. -/
structure EdgeStats where
  top : Stats
  bottom : Stats
  left : Stats
  right : Stats
  deriving DecidableEq

/-- The object `uniformityStatus` of the report. -/
structure UniformityStatus where
  top : Bool
  bottom : Bool
  left : Bool
  right : Bool
  deriving DecidableEq

/-- What `displayUniformityReport` computes before it builds the HTML. -/
structure UniformityReport where
  stats : EdgeStats
  uniformityStatus : UniformityStatus
  allUniform : Bool
  deriving DecidableEq

/-- The computation of `displayUniformityReport` (app.js 241-269): the stored
margin texts are parsed back to numbers, then summarised per edge. -/
def displayUniformityReport (s : Inspector) : UniformityReport :=
  let top := s.analysisResults.map (fun r => parseFixed2 r.margins.top)
  let bottom := s.analysisResults.map (fun r => parseFixed2 r.margins.bottom)
  let left := s.analysisResults.map (fun r => parseFixed2 r.margins.left)
  let right := s.analysisResults.map (fun r => parseFixed2 r.margins.right)
  let uniformityStatus : UniformityStatus :=
    { top := isUniform top s.marginThreshold
      bottom := isUniform bottom s.marginThreshold
      left := isUniform left s.marginThreshold
      right := isUniform right s.marginThreshold }
  { stats :=
      { top := calculateStats top
        bottom := calculateStats bottom
        left := calculateStats left
        right := calculateStats right }
    uniformityStatus := uniformityStatus
    allUniform :=
      [uniformityStatus.top, uniformityStatus.bottom, uniformityStatus.left,
        uniformityStatus.right].all (fun v => v) }

/-! ## Per-page consistency (`isPageConsistent`, app.js 462-475) -/

/-- Method `isPageConsistent(result, index)`; `none` stands for the `TypeError` raised
when `analysisResults[0]` is `undefined`. The parameter `index` is not used by
the code. -/
def isPageConsistent (s : Inspector) (result : PageResult) (_index : Nat) : Option Bool :=
  if s.analysisResults.length = 1 then some true
  else
    match s.analysisResults with
    | [] => none
    | first :: _ =>
      let threshold := s.marginThreshold
      some
        (jsLe (.fin |numSub (parseFixed2 result.margins.top) (parseFixed2 first.margins.top)|)
            threshold &&
          jsLe (.fin |numSub (parseFixed2 result.margins.bottom)
            (parseFixed2 first.margins.bottom)|) threshold &&
          jsLe (.fin |numSub (parseFixed2 result.margins.left)
            (parseFixed2 first.margins.left)|) threshold &&
          jsLe (.fin |numSub (parseFixed2 result.margins.right)
            (parseFixed2 first.margins.right)|) threshold)


/-! ## Vocabulary of the properties -/

/-- Rows of a `w × h` buffer that hold a content pixel. -/
def contentRows (data : List Nat) (w h : Nat) : Set Nat :=
  {y | y < h ∧ ∃ x, x < w ∧ contentAt data w x y = true}

/-- Columns of a `w × h` buffer that hold a content pixel. -/
def contentCols (data : List Nat) (w h : Nat) : Set Nat :=
  {x | x < w ∧ ∃ y, y < h ∧ contentAt data w x y = true}


/-- A 3 × 4 pixel page (1.5 × 2 points at scale 2) whose only content pixel is
at column 1, row 2: its pixel margins are top 2, bottom 1, left 1, right 1. -/
def samplePage : RenderedPage :=
  { view0 := 0, view1 := 0, view2 := 3 / 2, view3 := 2, scale := 2, width := 3, height := 4,
    data := singlePixelBuffer 3 4 1 2 }

/-- The four page edges. -/
inductive Edge where
  | top
  | bottom
  | left
  | right
  deriving DecidableEq

/-- The stored margin text of a page result for an edge. -/
def Edge.margin : Edge → PageResult → Fixed2
  | .top, r => r.margins.top
  | .bottom, r => r.margins.bottom
  | .left, r => r.margins.left
  | .right, r => r.margins.right

/-- The uniformity verdict of an edge. -/
def Edge.verdict : Edge → UniformityStatus → Bool
  | .top, u => u.top
  | .bottom, u => u.bottom
  | .left, u => u.left
  | .right, u => u.right

/-- The statistics of an edge. -/
def Edge.stats : Edge → EdgeStats → Stats
  | .top, s => s.top
  | .bottom, s => s.bottom
  | .left, s => s.left
  | .right, s => s.right

/-- The stored margins of an edge over all pages, parsed back to numbers. -/
def edgeValues (e : Edge) (results : List PageResult) : List ℚ :=
  results.map (fun r => parseFixed2 (e.margin r))

/-- A page result of an A4 page whose four stored margins are the given
numbers of hundredths of a millimetre. -/
def resultWithMargins (pageNumber top bottom left right : Nat) : PageResult :=
  { pageNumber := pageNumber
    pageWidth := ⟨false, 21000⟩
    pageHeight := ⟨false, 29700⟩
    margins := { top := ⟨false, top⟩, bottom := ⟨false, bottom⟩, left := ⟨false, left⟩,
                 right := ⟨false, right⟩ }
    bleed := { size := .fin 3, hasTopBleed := false, hasBottomBleed := false,
               hasLeftBleed := false, hasRightBleed := false }
    trimArea := { width := ⟨false, 21000⟩, height := ⟨false, 29700⟩ }
    margins_px := { top := 0, bottom := 0, left := 0, right := 0 } }

/-- An inspector holding the given report and margin threshold. -/
def inspectorWith (results : List PageResult) (marginThreshold : JSNumber) : Inspector :=
  { pdfDoc := none, analysisResults := results, bleedSize := .fin 3,
    marginThreshold := marginThreshold }

/-- The results of analysing the given rendered pages in order, numbered from
`pageNum` on. -/
def resultsFrom (bleedSize : JSNumber) : Nat → List RenderedPage → List PageResult
  | _, [] => []
  | pageNum, p :: ps => analyzeRendered bleedSize pageNum p :: resultsFrom bleedSize (pageNum + 1) ps

/-- A freshly constructed inspector that has loaded the given pages. -/
def inspectorLoaded (pages : List (Option RenderedPage)) : Inspector :=
  { Inspector.new with pdfDoc := some { pages := pages } }

/-- The trim width before `toFixed(2)`:
`pageWidth * 0.3527778 - pxToMm(margins.left) - pxToMm(margins.right)`. -/
def trimWidthMm (page : RenderedPage) : ℚ :=
  numSub (numSub (numMul (numSub page.view2 page.view0) mmPerPoint)
    (pxToMm page.scale (detectMargins page.data page.width page.height).left))
    (pxToMm page.scale (detectMargins page.data page.width page.height).right)

/-- The trim height before `toFixed(2)`:
`pageHeight * 0.3527778 - pxToMm(margins.top) - pxToMm(margins.bottom)`. -/
def trimHeightMm (page : RenderedPage) : ℚ :=
  numSub (numSub (numMul (numSub page.view3 page.view1) mmPerPoint)
    (pxToMm page.scale (detectMargins page.data page.width page.height).top))
    (pxToMm page.scale (detectMargins page.data page.width page.height).bottom)

/-- The decimal number that a stored `toFixed(2)` text denotes. -/
def Fixed2.value (f : Fixed2) : ℚ :=
  if f.neg then -((f.cents : ℚ) / 100) else (f.cents : ℚ) / 100

/-- The decimal millimetre values stored for an edge, one per page. -/
def storedValues (e : Edge) (results : List PageResult) : List ℚ :=
  results.map (fun r => (e.margin r).value)

/-! ## Report exporter (`exportJSON`, `exportCSV`, app.js 484-523) -/

/-- The characters of a stored `toFixed(2)` text: sign, integer digits, a
point, two decimals. -/
def Fixed2.text (f : Fixed2) : String :=
  (if f.neg then "-" else "") ++ toString (f.cents / 100) ++ "." ++
    toString (f.cents % 100 / 10) ++ toString (f.cents % 10)

/-- A boolean inside a template literal. -/
def boolText (b : Bool) : String := if b then "true" else "false"

/-- The first line assigned to `csv` (app.js 515). -/
def csvHeader : String :=
  "Page,Width (mm),Height (mm),Top Margin (mm),Bottom Margin (mm),Left Margin (mm),Right Margin (mm),Trim Width (mm),Trim Height (mm),Has Top Bleed,Has Bottom Bleed,Has Left Bleed,Has Right Bleed\n"

/-- The template literal appended for one page result (app.js 518). -/
def csvRow (r : PageResult) : String :=
  toString r.pageNumber ++ "," ++ r.pageWidth.text ++ "," ++ r.pageHeight.text ++ "," ++
    r.margins.top.text ++ "," ++ r.margins.bottom.text ++ "," ++ r.margins.left.text ++ "," ++
    r.margins.right.text ++ "," ++ r.trimArea.width.text ++ "," ++ r.trimArea.height.text ++
    "," ++ boolText r.bleed.hasTopBleed ++ "," ++ boolText r.bleed.hasBottomBleed ++ "," ++
    boolText r.bleed.hasLeftBleed ++ "," ++ boolText r.bleed.hasRightBleed ++ "\n"

/-- The text built by `exportCSV()` before it is wrapped in a `Blob`:
`forEach` appends one row per page result to the header. -/
def exportCSV (s : Inspector) : String :=
  s.analysisResults.foldl (fun csv r => csv ++ csvRow r) csvHeader

/-- The object `metadata` of the JSON export. -/
structure JsonMetadata where
  totalPages : Nat
  bleedSize : JSNumber
  marginThreshold : JSNumber
  analysisDate : String

/-- The object `dimensions` of a JSON page entry. -/
structure JsonDimensions where
  width : Fixed2
  height : Fixed2
  deriving DecidableEq

/-- One entry of the array `pages` of the JSON export. -/
structure JsonPage where
  pageNumber : Nat
  dimensions : JsonDimensions
  margins : Margins
  trimArea : TrimArea
  bleed : Bleed
  deriving DecidableEq

/-- The object `data` built by `exportJSON()`. -/
structure JsonData where
  metadata : JsonMetadata
  pages : List JsonPage

/-- The object built by `exportJSON()` before `JSON.stringify`; `now` is
`new Date().toISOString()`. -/
def exportJSON (s : Inspector) (now : String) : JsonData :=
  { metadata :=
      { totalPages := s.analysisResults.length
        bleedSize := s.bleedSize
        marginThreshold := s.marginThreshold
        analysisDate := now }
    pages := s.analysisResults.map (fun r =>
      { pageNumber := r.pageNumber
        dimensions := { width := r.pageWidth, height := r.pageHeight }
        margins := r.margins
        trimArea := r.trimArea
        bleed :=
          { size := r.bleed.size
            hasTopBleed := r.bleed.hasTopBleed
            hasBottomBleed := r.bleed.hasBottomBleed
            hasLeftBleed := r.bleed.hasLeftBleed
            hasRightBleed := r.bleed.hasRightBleed } }) }

/-! ## Vocabulary of the export properties -/

/-- Cut a text at every occurrence of the separator; the pieces between the
separators are returned in order (a text without separator is one piece). -/
def splitOnChar (sep : Char) : List Char → List (List Char)
  | [] => [[]]
  | c :: cs =>
    if c = sep then [] :: splitOnChar sep cs
    else
      match splitOnChar sep cs with
      | [] => [[c]]
      | piece :: pieces => (c :: piece) :: pieces

/-- Join pieces with a separator between neighbours. -/
def joinWith (sep : Char) : List (List Char) → List Char
  | [] => []
  | [piece] => piece
  | piece :: next :: rest => piece ++ sep :: joinWith sep (next :: rest)

/-- The thirteen column titles, in the order of the specification. -/
def csvHeaderFields : List String :=
  ["Page", "Width (mm)", "Height (mm)", "Top Margin (mm)", "Bottom Margin (mm)",
    "Left Margin (mm)", "Right Margin (mm)", "Trim Width (mm)", "Trim Height (mm)",
    "Has Top Bleed", "Has Bottom Bleed", "Has Left Bleed", "Has Right Bleed"]

/-- The thirteen values of a page result, in the order of the specification:
page, width, height, top, bottom, left, right margin, trim width, trim height,
then the top, bottom, left, right bleed flags. -/
def csvFields (r : PageResult) : List String :=
  [toString r.pageNumber, r.pageWidth.text, r.pageHeight.text, r.margins.top.text,
    r.margins.bottom.text, r.margins.left.text, r.margins.right.text, r.trimArea.width.text,
    r.trimArea.height.text, boolText r.bleed.hasTopBleed, boolText r.bleed.hasBottomBleed,
    boolText r.bleed.hasLeftBleed, boolText r.bleed.hasRightBleed]

/-- The characters of a row whose fields are the given texts. -/
def rowChars (fields : List String) : List Char :=
  joinWith ',' (fields.map String.toList)

/-- The text made of the given lines, each followed by a newline. -/
def terminated : List (List Char) → List Char
  | [] => []
  | line :: lines => line ++ '\n' :: terminated lines

/-! ## Properties of the detector -/

theorem rowHit_iff (data : List Nat) (w y : Nat) :
    rowHit data w y = true ↔ ∃ x, x < w ∧ contentAt data w x y = true := by
  simp [rowHit, List.any_eq_true]

theorem colHit_iff (data : List Nat) (w h x : Nat) :
    colHit data w h x = true ↔ ∃ y, y < h ∧ contentAt data w x y = true := by
  simp [colHit, List.any_eq_true]

/-- An ascending scan returns the least hit, or nothing when there is none. -/
theorem find_range_spec (p : Nat → Bool) (n : Nat) :
    match (List.range n).find? p with
    | some y => y < n ∧ p y = true ∧ ∀ z, z < y → p z = false
    | none => ∀ z, z < n → p z = false := by
  induction n with
  | zero => simp
  | succ n ih =>
    rw [List.range_succ, List.find?_append]
    cases hf : (List.range n).find? p with
    | some y =>
      rw [hf] at ih
      simp only [Option.or]
      exact ⟨by omega, ih.2.1, ih.2.2⟩
    | none =>
      rw [hf] at ih
      simp only [Option.or, List.find?_cons, List.find?_nil]
      cases hp : p n with
      | true =>
        exact ⟨by omega, hp, ih⟩
      | false =>
        intro z hz
        rcases Nat.lt_succ_iff_lt_or_eq.mp hz with h1 | h1
        · exact ih z h1
        · rw [h1]; exact hp

/-- A descending scan returns the greatest hit, or nothing when there is none. -/
theorem find_range_reverse_spec (p : Nat → Bool) (n : Nat) :
    match (List.range n).reverse.find? p with
    | some y => y < n ∧ p y = true ∧ ∀ z, y < z → z < n → p z = false
    | none => ∀ z, z < n → p z = false := by
  induction n with
  | zero => simp
  | succ n ih =>
    rw [List.range_succ, List.reverse_append, List.reverse_singleton, List.singleton_append,
      List.find?_cons]
    cases hp : p n with
    | true =>
      exact ⟨by omega, hp, fun z h1 h2 => by omega⟩
    | false =>
      cases hf : (List.range n).reverse.find? p with
      | some y =>
        rw [hf] at ih
        refine ⟨by omega, ih.2.1, fun z h1 h2 => ?_⟩
        rcases Nat.lt_succ_iff_lt_or_eq.mp h2 with h3 | h3
        · exact ih.2.2 z h1 h3
        · rw [h3]; exact hp
      | none =>
        rw [hf] at ih
        intro z hz
        rcases Nat.lt_succ_iff_lt_or_eq.mp hz with h1 | h1
        · exact ih z h1
        · rw [h1]; exact hp


theorem topMargin_isLeast (data : List Nat) (w h : Nat)
    (hc : (contentRows data w h).Nonempty) :
    IsLeast (contentRows data w h) (topMargin data w h) := by
  have hs := find_range_spec (fun y => rowHit data w y) h
  unfold topMargin
  cases hf : (List.range h).find? (fun y => rowHit data w y) with
  | some y =>
    rw [hf] at hs
    show IsLeast (contentRows data w h) y
    refine ⟨⟨hs.1, (rowHit_iff data w y).mp hs.2.1⟩, fun z hz => ?_⟩
    by_contra hlt
    have h1 := hs.2.2 z (by omega)
    have h2 := (rowHit_iff data w z).mpr hz.2
    simp only at h1
    rw [h1] at h2
    exact Bool.noConfusion h2
  | none =>
    rw [hf] at hs
    obtain ⟨z, hz⟩ := hc
    have h1 := hs z hz.1
    have h2 := (rowHit_iff data w z).mpr hz.2
    simp only at h1
    rw [h1] at h2
    exact Bool.noConfusion h2

theorem bottomMargin_isGreatest (data : List Nat) (w h : Nat)
    (hc : (contentRows data w h).Nonempty) :
    ∃ yB, IsGreatest (contentRows data w h) yB ∧ bottomMargin data w h = h - 1 - yB := by
  have hs := find_range_reverse_spec (fun y => rowHit data w y) h
  unfold bottomMargin
  cases hf : (List.range h).reverse.find? (fun y => rowHit data w y) with
  | some y =>
    rw [hf] at hs
    refine ⟨y, ⟨⟨hs.1, (rowHit_iff data w y).mp hs.2.1⟩, fun z hz => ?_⟩, by simp only; omega⟩
    by_contra hlt
    have h1 := hs.2.2 z (by omega) hz.1
    have h2 := (rowHit_iff data w z).mpr hz.2
    simp only at h1
    rw [h1] at h2
    exact Bool.noConfusion h2
  | none =>
    rw [hf] at hs
    obtain ⟨z, hz⟩ := hc
    have h1 := hs z hz.1
    have h2 := (rowHit_iff data w z).mpr hz.2
    simp only at h1
    rw [h1] at h2
    exact Bool.noConfusion h2

theorem leftMargin_isLeast (data : List Nat) (w h : Nat)
    (hc : (contentCols data w h).Nonempty) :
    IsLeast (contentCols data w h) (leftMargin data w h) := by
  have hs := find_range_spec (fun x => colHit data w h x) w
  unfold leftMargin
  cases hf : (List.range w).find? (fun x => colHit data w h x) with
  | some x =>
    rw [hf] at hs
    show IsLeast (contentCols data w h) x
    refine ⟨⟨hs.1, (colHit_iff data w h x).mp hs.2.1⟩, fun z hz => ?_⟩
    by_contra hlt
    have h1 := hs.2.2 z (by omega)
    have h2 := (colHit_iff data w h z).mpr hz.2
    simp only at h1
    rw [h1] at h2
    exact Bool.noConfusion h2
  | none =>
    rw [hf] at hs
    obtain ⟨z, hz⟩ := hc
    have h1 := hs z hz.1
    have h2 := (colHit_iff data w h z).mpr hz.2
    simp only at h1
    rw [h1] at h2
    exact Bool.noConfusion h2

theorem rightMargin_isGreatest (data : List Nat) (w h : Nat)
    (hc : (contentCols data w h).Nonempty) :
    ∃ xR, IsGreatest (contentCols data w h) xR ∧ rightMargin data w h = w - 1 - xR := by
  have hs := find_range_reverse_spec (fun x => colHit data w h x) w
  unfold rightMargin
  cases hf : (List.range w).reverse.find? (fun x => colHit data w h x) with
  | some x =>
    rw [hf] at hs
    refine ⟨x, ⟨⟨hs.1, (colHit_iff data w h x).mp hs.2.1⟩, fun z hz => ?_⟩, by simp only; omega⟩
    by_contra hlt
    have h1 := hs.2.2 z (by omega) hz.1
    have h2 := (colHit_iff data w h z).mpr hz.2
    simp only at h1
    rw [h1] at h2
    exact Bool.noConfusion h2
  | none =>
    rw [hf] at hs
    obtain ⟨z, hz⟩ := hc
    have h1 := hs z hz.1
    have h2 := (colHit_iff data w h z).mpr hz.2
    simp only at h1
    rw [h1] at h2
    exact Bool.noConfusion h2

/-- Claim C1. If a `w × h` buffer holds at least one content pixel, `detectMargins`
returns top = the smallest row holding content, bottom = `h - 1 -` the largest
such row, left = the smallest column holding content and right = `w - 1 -` the
largest such column; hence a buffer whose only content pixel is `(x0, y0)`
gives top `y0`, left `x0`, bottom `h - y0 - 1`, right `w - x0 - 1`. -/
theorem detectMargins_bounding_box (data : List Nat) (w h : Nat)
    (hc : ∃ x y, x < w ∧ y < h ∧ contentAt data w x y = true) :
    (∃ yT yB xL xR,
      IsLeast (contentRows data w h) yT ∧ IsGreatest (contentRows data w h) yB ∧
      IsLeast (contentCols data w h) xL ∧ IsGreatest (contentCols data w h) xR ∧
      detectMargins data w h =
        { top := yT, bottom := h - 1 - yB, left := xL, right := w - 1 - xR }) ∧
    (∀ x0 y0, x0 < w → y0 < h →
      (∀ x y, x < w → y < h → (contentAt data w x y = true ↔ x = x0 ∧ y = y0)) →
      detectMargins data w h =
        { top := y0, bottom := h - y0 - 1, left := x0, right := w - x0 - 1 }) := by
  obtain ⟨x, y, hx, hy, hxy⟩ := hc
  have hr : (contentRows data w h).Nonempty := ⟨y, hy, x, hx, hxy⟩
  have hl : (contentCols data w h).Nonempty := ⟨x, hx, y, hy, hxy⟩
  have hT := topMargin_isLeast data w h hr
  obtain ⟨yB, hB, hBe⟩ := bottomMargin_isGreatest data w h hr
  have hL := leftMargin_isLeast data w h hl
  obtain ⟨xR, hR, hRe⟩ := rightMargin_isGreatest data w h hl
  refine ⟨⟨_, yB, _, xR, hT, hB, hL, hR, ?_⟩, ?_⟩
  · simp only [detectMargins, hBe, hRe]
  · intro x0 y0 hx0 hy0 hone
    have e1 : topMargin data w h = y0 := by
      obtain ⟨h1, x1, h2, h3⟩ := hT.1
      exact ((hone x1 _ h2 h1).mp h3).2
    have e2 : yB = y0 := by
      obtain ⟨h1, x1, h2, h3⟩ := hB.1
      exact ((hone x1 _ h2 h1).mp h3).2
    have e3 : leftMargin data w h = x0 := by
      obtain ⟨h1, y1, h2, h3⟩ := hL.1
      exact ((hone _ y1 h1 h2).mp h3).1
    have e4 : xR = x0 := by
      obtain ⟨h1, y1, h2, h3⟩ := hR.1
      exact ((hone _ y1 h1 h2).mp h3).1
    simp only [detectMargins, hBe, hRe, e1, e2, e3, e4, PixelMargins.mk.injEq, true_and]
    omega

theorem singlePixelBuffer_getElem? (w h px py i : Nat) (hi : i < w * h * 4) :
    (singlePixelBuffer w h px py)[i]? =
      some (if i / 4 = py * w + px ∧ i % 4 ≠ 3 then 0 else 255) := by
  simp [singlePixelBuffer, List.getElem?_map, List.getElem?_range hi]

theorem contentAt_singlePixelBuffer_12_22 (x y : Nat) (hx : x < 12) (hy : y < 22) :
    contentAt (singlePixelBuffer 12 22 10 20) 12 x y = true ↔ x = 10 ∧ y = 20 := by
  have h0 := singlePixelBuffer_getElem? 12 22 10 20 ((y * 12 + x) * 4) (by omega)
  have h1 := singlePixelBuffer_getElem? 12 22 10 20 ((y * 12 + x) * 4 + 1) (by omega)
  have h2 := singlePixelBuffer_getElem? 12 22 10 20 ((y * 12 + x) * 4 + 2) (by omega)
  have h3 := singlePixelBuffer_getElem? 12 22 10 20 ((y * 12 + x) * 4 + 3) (by omega)
  have e0 : ((y * 12 + x) * 4) / 4 = y * 12 + x := by omega
  have e1 : ((y * 12 + x) * 4 + 1) / 4 = y * 12 + x := by omega
  have e2 : ((y * 12 + x) * 4 + 2) / 4 = y * 12 + x := by omega
  have e3 : ((y * 12 + x) * 4 + 3) % 4 = 3 := by omega
  have m0 : ((y * 12 + x) * 4) % 4 = 0 := by omega
  rw [e0, m0] at h0
  rw [e3] at h3
  simp only [contentAt, isContent, h0, h3, jsGt, jsLt]
  by_cases hp : y * 12 + x = 20 * 12 + 10
  · have : x = 10 ∧ y = 20 := by omega
    simp [hp, this]
  · have : ¬ (x = 10 ∧ y = 20) := by omega
    simp [hp, this, h1, h2, e1, e2]

/-- Witness for C1: a 12 × 22 buffer whose only content pixel is at
`(x, y) = (10, 20)` yields top 20, bottom 1, left 10, right 1. -/
theorem detectMargins_bounding_box_witness :
    (∃ x y, x < 12 ∧ y < 22 ∧ contentAt (singlePixelBuffer 12 22 10 20) 12 x y = true) ∧
    detectMargins (singlePixelBuffer 12 22 10 20) 12 22 =
      { top := 20, bottom := 22 - 20 - 1, left := 10, right := 12 - 10 - 1 } :=
  have hc : ∃ x y, x < 12 ∧ y < 22 ∧
      contentAt (singlePixelBuffer 12 22 10 20) 12 x y = true :=
    ⟨10, 20, by decide, by decide,
      (contentAt_singlePixelBuffer_12_22 10 20 (by decide) (by decide)).mpr ⟨rfl, rfl⟩⟩
  ⟨hc, (detectMargins_bounding_box (singlePixelBuffer 12 22 10 20) 12 22 hc).2 10 20
    (by decide) (by decide) contentAt_singlePixelBuffer_12_22⟩

/-- Claim C4. A pixel is content iff its alpha is `> 10` and one of its red,
green, blue channels is `< 250`; a buffer of any width and height in which no
pixel is content yields the margins 0, 0, 0, 0. -/
theorem detectMargins_blank (data : List Nat) (w h : Nat) :
    (∀ r g b a : Nat, isContent (some r) (some g) (some b) (some a) = true ↔
      a > 10 ∧ (r < 250 ∨ g < 250 ∨ b < 250)) ∧
    ((∀ x y, x < w → y < h → contentAt data w x y = false) →
      detectMargins data w h = { top := 0, bottom := 0, left := 0, right := 0 }) := by
  refine ⟨fun r g b a => by simp [isContent, jsGt, jsLt, or_assoc], fun hblank => ?_⟩
  have hrow : ∀ y, y < h → rowHit data w y = false := by
    intro y hy
    rw [Bool.eq_false_iff]
    intro hr
    obtain ⟨x, hx, hxy⟩ := (rowHit_iff data w y).mp hr
    rw [hblank x y hx hy] at hxy
    exact Bool.noConfusion hxy
  have hcol : ∀ x, x < w → colHit data w h x = false := by
    intro x hx
    rw [Bool.eq_false_iff]
    intro hr
    obtain ⟨y, hy, hxy⟩ := (colHit_iff data w h x).mp hr
    rw [hblank x y hx hy] at hxy
    exact Bool.noConfusion hxy
  have f1 : (List.range h).find? (fun y => rowHit data w y) = none := by
    rw [List.find?_eq_none]
    intro y hy
    simp [hrow y (List.mem_range.mp hy)]
  have f2 : (List.range h).reverse.find? (fun y => rowHit data w y) = none := by
    rw [List.find?_eq_none]
    intro y hy
    simp [hrow y (List.mem_range.mp (List.mem_reverse.mp hy))]
  have f3 : (List.range w).find? (fun x => colHit data w h x) = none := by
    rw [List.find?_eq_none]
    intro x hx
    simp [hcol x (List.mem_range.mp hx)]
  have f4 : (List.range w).reverse.find? (fun x => colHit data w h x) = none := by
    rw [List.find?_eq_none]
    intro x hx
    simp [hcol x (List.mem_range.mp (List.mem_reverse.mp hx))]
  simp only [detectMargins, topMargin, bottomMargin, leftMargin, rightMargin, f1, f2, f3, f4]

/-- Witness for C4: an all-white, fully visible 3 × 2 buffer. -/
theorem detectMargins_blank_witness :
    (∀ x y, x < 3 → y < 2 → contentAt (List.replicate 24 255) 3 x y = false) ∧
    detectMargins (List.replicate 24 255) 3 2 =
      { top := 0, bottom := 0, left := 0, right := 0 } :=
  have hb : ∀ x y, x < 3 → y < 2 → contentAt (List.replicate 24 255) 3 x y = false := by
    intro x y hx hy
    interval_cases x <;> interval_cases y <;> decide
  ⟨hb, (detectMargins_blank (List.replicate 24 255) 3 2).2 hb⟩


/-! ## Rounding to binary64 -/

theorem floor_le_roundHalfEven (x : ℚ) : ⌊x⌋ ≤ roundHalfEven x := by
  unfold roundHalfEven
  split_ifs <;> omega

theorem roundHalfEven_le_floor_add_one (x : ℚ) : roundHalfEven x ≤ ⌊x⌋ + 1 := by
  unfold roundHalfEven
  split_ifs <;> omega

theorem roundHalfEven_mono {x y : ℚ} (h : x ≤ y) : roundHalfEven x ≤ roundHalfEven y := by
  have hf : ⌊x⌋ ≤ ⌊y⌋ := Int.floor_mono h
  rcases lt_or_eq_of_le hf with hlt | heq
  · calc roundHalfEven x ≤ ⌊x⌋ + 1 := roundHalfEven_le_floor_add_one x
      _ ≤ ⌊y⌋ := hlt
      _ ≤ roundHalfEven y := floor_le_roundHalfEven y
  · unfold roundHalfEven
    rw [← heq]
    split_ifs <;> first | omega | (exfalso; linarith)

theorem roundHalfEven_intCast (n : ℤ) : roundHalfEven (n : ℚ) = n := by
  unfold roundHalfEven
  simp

theorem roundHalfEven_eq_of_abs_sub_lt (x : ℚ) (n : ℤ) (h : |x - n| < 1 / 2) :
    roundHalfEven x = n := by
  rw [abs_lt] at h
  obtain ⟨h1, h2⟩ := h
  rcases le_or_lt (n : ℚ) x with hge | hlt
  · have hfl : ⌊x⌋ = n := by
      rw [Int.floor_eq_iff]
      constructor <;> linarith
    unfold roundHalfEven
    rw [hfl, if_pos (by linarith)]
  · have hfl : ⌊x⌋ = n - 1 := by
      rw [Int.floor_eq_iff]
      push_cast
      constructor <;> linarith
    unfold roundHalfEven
    rw [hfl]
    push_cast
    rw [if_neg (by linarith), if_pos (by linarith)]
    ring

theorem roundHalfEven_neg (x : ℚ) : roundHalfEven (-x) = -roundHalfEven x := by
  by_cases hx : (⌊x⌋ : ℚ) = x
  · rw [← hx, ← Int.cast_neg, roundHalfEven_intCast, roundHalfEven_intCast]
  · have h1 : (⌊x⌋ : ℚ) < x := lt_of_le_of_ne (Int.floor_le x) hx
    have h2 : x < ⌊x⌋ + 1 := Int.lt_floor_add_one x
    have hfl : ⌊-x⌋ = -⌊x⌋ - 1 := by
      rw [Int.floor_eq_iff]
      push_cast
      constructor <;> linarith
    unfold roundHalfEven
    rw [hfl]
    push_cast
    split_ifs <;> first | omega | (exfalso; linarith)

theorem binade_eq {x : ℚ} {e : ℤ} (hx : 0 < x) (h1 : (2 : ℚ) ^ e ≤ x) (h2 : x < (2 : ℚ) ^ (e + 1)) :
    binade x = e := by
  unfold binade
  rw [abs_of_pos hx]
  have hb : 1 < 2 := by decide
  have a1 : e ≤ Int.log 2 x := (Int.zpow_le_iff_le_log hb hx).mp (by exact_mod_cast h1)
  have a2 : Int.log 2 x < e + 1 := (Int.lt_zpow_iff_log_lt hb hx).mp (by exact_mod_cast h2)
  omega

theorem binade_neg (x : ℚ) : binade (-x) = binade x := by
  unfold binade
  rw [abs_neg]

theorem zpow_binade_le {x : ℚ} (hx : 0 < x) : (2 : ℚ) ^ binade x ≤ x := by
  unfold binade
  rw [abs_of_pos hx]
  exact_mod_cast Int.zpow_log_le_self (b := 2) (by decide) hx

theorem lt_zpow_binade_succ {x : ℚ} (hx : 0 < x) : x < (2 : ℚ) ^ (binade x + 1) := by
  unfold binade
  rw [abs_of_pos hx]
  exact_mod_cast Int.lt_zpow_succ_log_self (b := 2) (by decide) x

theorem binade_mono {x y : ℚ} (hx : 0 < x) (h : x ≤ y) : binade x ≤ binade y := by
  unfold binade
  rw [abs_of_pos hx, abs_of_pos (lt_of_lt_of_le hx h)]
  exact Int.log_mono_right hx h

theorem binade_two_mul {x : ℚ} (hx : 0 < x) : binade (2 * x) = binade x + 1 := by
  apply binade_eq (by linarith)
  · rw [zpow_add_one₀ (by norm_num)]
    have := zpow_binade_le hx
    linarith
  · rw [zpow_add_one₀ (by norm_num)]
    have := lt_zpow_binade_succ hx
    linarith

theorem ulp_pos (x : ℚ) : 0 < ulp x := by
  unfold ulp
  positivity

theorem ulp_neg (x : ℚ) : ulp (-x) = ulp x := by
  unfold ulp
  rw [binade_neg]

theorem roundDouble_zero : roundDouble 0 = 0 := by
  unfold roundDouble
  rw [zero_div]
  have : roundHalfEven 0 = 0 := by exact_mod_cast roundHalfEven_intCast 0
  rw [this]
  simp

theorem roundDouble_neg (x : ℚ) : roundDouble (-x) = -roundDouble x := by
  unfold roundDouble
  rw [ulp_neg, neg_div, roundHalfEven_neg]
  push_cast
  ring

/-- Evaluation rule: a positive `x` in the binade `[2^e, 2^(e+1))` whose scaled
value lies strictly within one half of the integer `n` rounds to `n * 2^(e-52)`. -/
theorem roundDouble_eq_of {x : ℚ} {e n : ℤ} (hx : 0 < x) (h1 : (2 : ℚ) ^ e ≤ x)
    (h2 : x < (2 : ℚ) ^ (e + 1)) (h3 : |x / (2 : ℚ) ^ (e - 52) - n| < 1 / 2) :
    roundDouble x = n * (2 : ℚ) ^ (e - 52) := by
  unfold roundDouble ulp
  rw [binade_eq hx h1 h2, roundHalfEven_eq_of_abs_sub_lt _ n h3]

theorem roundDouble_two_mul (x : ℚ) : roundDouble (2 * x) = 2 * roundDouble x := by
  rcases lt_trichotomy x 0 with hneg | hzero | hpos
  · have hu : ulp (2 * x) = 2 * ulp x := by
      have : 2 * x = -(2 * (-x)) := by ring
      rw [this, ulp_neg]
      unfold ulp
      rw [binade_two_mul (by linarith), binade_neg]
      rw [show binade x + 1 - 52 = (binade x - 52) + 1 by ring, zpow_add_one₀ (by norm_num)]
      ring
    unfold roundDouble
    rw [hu]
    have hne : ulp x ≠ 0 := ne_of_gt (ulp_pos x)
    rw [mul_div_mul_left _ _ (by norm_num : (2 : ℚ) ≠ 0)]
    ring
  · rw [hzero]
    simp [roundDouble_zero]
  · have hu : ulp (2 * x) = 2 * ulp x := by
      unfold ulp
      rw [binade_two_mul hpos]
      rw [show binade x + 1 - 52 = (binade x - 52) + 1 by ring, zpow_add_one₀ (by norm_num)]
      ring
    unfold roundDouble
    rw [hu]
    rw [mul_div_mul_left _ _ (by norm_num : (2 : ℚ) ≠ 0)]
    ring

theorem roundDouble_nonneg {x : ℚ} (hx : 0 ≤ x) : 0 ≤ roundDouble x := by
  unfold roundDouble
  have h0 : (0 : ℤ) ≤ roundHalfEven (x / ulp x) := by
    have := roundHalfEven_mono (div_nonneg hx (le_of_lt (ulp_pos x)))
    rwa [show roundHalfEven 0 = 0 by exact_mod_cast roundHalfEven_intCast 0] at this
  have h1 : (0 : ℚ) ≤ (roundHalfEven (x / ulp x) : ℚ) := by exact_mod_cast h0
  exact mul_nonneg h1 (le_of_lt (ulp_pos x))

/-- A positive number rounds into the closure of its own binade. -/
theorem roundDouble_mem_binade {x : ℚ} (hx : 0 < x) :
    (2 : ℚ) ^ binade x ≤ roundDouble x ∧ roundDouble x ≤ (2 : ℚ) ^ (binade x + 1) := by
  have hu := ulp_pos x
  have e1 : (2 : ℚ) ^ binade x = ((2 ^ 52 : ℤ) : ℚ) * ulp x := by
    unfold ulp
    rw [show binade x = 52 + (binade x - 52) by ring, zpow_add₀ (by norm_num)]
    rw [show 52 + (binade x - 52) - 52 = binade x - 52 by ring]
    norm_num
  have e2 : (2 : ℚ) ^ (binade x + 1) = ((2 ^ 53 : ℤ) : ℚ) * ulp x := by
    unfold ulp
    rw [show binade x + 1 = 53 + (binade x - 52) by ring, zpow_add₀ (by norm_num)]
    norm_num
  have l1 : ((2 ^ 52 : ℤ) : ℚ) ≤ x / ulp x := by
    rw [le_div_iff₀ hu, ← e1]
    exact zpow_binade_le hx
  have l2 : x / ulp x ≤ ((2 ^ 53 : ℤ) : ℚ) := by
    rw [div_le_iff₀ hu, ← e2]
    exact le_of_lt (lt_zpow_binade_succ hx)
  have m1 := roundHalfEven_mono l1
  have m2 := roundHalfEven_mono l2
  rw [roundHalfEven_intCast] at m1 m2
  unfold roundDouble
  rw [e1, e2]
  constructor
  · exact mul_le_mul_of_nonneg_right (by exact_mod_cast m1) (le_of_lt hu)
  · exact mul_le_mul_of_nonneg_right (by exact_mod_cast m2) (le_of_lt hu)

theorem roundDouble_mono_of_pos {x y : ℚ} (hx : 0 < x) (h : x ≤ y) :
    roundDouble x ≤ roundDouble y := by
  have hy : 0 < y := lt_of_lt_of_le hx h
  rcases lt_or_eq_of_le (binade_mono hx h) with hlt | heq
  · calc roundDouble x ≤ (2 : ℚ) ^ (binade x + 1) := (roundDouble_mem_binade hx).2
      _ ≤ (2 : ℚ) ^ binade y := zpow_le_zpow_right₀ (by norm_num) hlt
      _ ≤ roundDouble y := (roundDouble_mem_binade hy).1
  · have hu : ulp x = ulp y := by unfold ulp; rw [heq]
    unfold roundDouble
    rw [hu]
    have := roundHalfEven_mono (div_le_div_of_nonneg_right h (le_of_lt (ulp_pos y)))
    exact mul_le_mul_of_nonneg_right (by exact_mod_cast this) (le_of_lt (ulp_pos y))

/-- Rounding to the nearest double is monotone. -/
theorem roundDouble_mono {x y : ℚ} (h : x ≤ y) : roundDouble x ≤ roundDouble y := by
  rcases lt_trichotomy x 0 with hx | hx | hx
  · rcases le_or_lt 0 y with hy | hy
    · have a := roundDouble_nonneg hy
      have b := roundDouble_nonneg (x := -x) (by linarith)
      rw [roundDouble_neg] at b
      linarith
    · have := roundDouble_mono_of_pos (x := -y) (y := -x) (by linarith) (by linarith)
      rw [roundDouble_neg, roundDouble_neg] at this
      linarith
  · rw [hx, roundDouble_zero]
    exact roundDouble_nonneg (by linarith)
  · exact roundDouble_mono_of_pos hx h


theorem roundHalfEven_eq_of_tie (x : ℚ) (n : ℤ) (hn : n % 2 = 0) (h : |x - n| = 1 / 2) :
    roundHalfEven x = n := by
  rcases abs_eq (by norm_num : (0 : ℚ) ≤ 1 / 2) |>.mp h with hp | hm
  · have hx : x = n + 1 / 2 := by linarith
    have hfl : ⌊x⌋ = n := by
      rw [Int.floor_eq_iff]
      constructor <;> linarith
    unfold roundHalfEven
    rw [hfl, if_neg (by linarith), if_neg (by linarith), if_pos hn]
  · have hx : x = n - 1 / 2 := by linarith
    have hfl : ⌊x⌋ = n - 1 := by
      rw [Int.floor_eq_iff]
      push_cast
      constructor <;> linarith
    unfold roundHalfEven
    rw [hfl]
    push_cast
    rw [if_neg (by linarith), if_neg (by linarith), if_neg (by omega)]
    ring

/-- Evaluation rule for a tie: the scaled value lies exactly half way between
two integers and `n` is the even one. -/
theorem roundDouble_eq_of_tie {x : ℚ} {e n : ℤ} (hx : 0 < x) (h1 : (2 : ℚ) ^ e ≤ x)
    (h2 : x < (2 : ℚ) ^ (e + 1)) (hn : n % 2 = 0)
    (h3 : |x / (2 : ℚ) ^ (e - 52) - n| = 1 / 2) :
    roundDouble x = n * (2 : ℚ) ^ (e - 52) := by
  unfold roundDouble ulp
  rw [binade_eq hx h1 h2, roundHalfEven_eq_of_tie _ n hn h3]

/-! ## Evaluated roundings -/

/-- The double written `0.3527778`. -/
theorem roundDouble_mmPerPoint_literal : roundDouble (3527778 / 10000000) = 6355079874498333 / 18014398509481984 := by
  rw [roundDouble_eq_of (e := -2) (n := 6355079874498333) (by norm_num) (by norm_num) (by norm_num)
    (by rw [abs_lt]; constructor <;> norm_num)]
  norm_num

/-- The value 1 is a double. -/
theorem roundDouble_one : roundDouble (1) = 1 := by
  rw [roundDouble_eq_of (e := 0) (n := 4503599627370496) (by norm_num) (by norm_num) (by norm_num)
    (by rw [abs_lt]; constructor <;> norm_num)]
  norm_num

/-- The double `0.3527778` rounds to itself. -/
theorem roundDouble_mmPerPoint_value : roundDouble (6355079874498333 / 18014398509481984) = 6355079874498333 / 18014398509481984 := by
  rw [roundDouble_eq_of (e := -2) (n := 6355079874498333) (by norm_num) (by norm_num) (by norm_num)
    (by rw [abs_lt]; constructor <;> norm_num)]
  norm_num

/-- The double written `0.35`. -/
theorem roundDouble_35_cents : roundDouble (35 / 100) = 3152519739159347 / 9007199254740992 := by
  rw [roundDouble_eq_of (e := -2) (n := 6305039478318694) (by norm_num) (by norm_num) (by norm_num)
    (by rw [abs_lt]; constructor <;> norm_num)]
  norm_num

/-- The value 2 is a double. -/
theorem roundDouble_2 : roundDouble (2) = 2 := by
  rw [roundDouble_eq_of (e := 1) (n := 4503599627370496) (by norm_num) (by norm_num) (by norm_num)
    (by rw [abs_lt]; constructor <;> norm_num)]
  norm_num

/-- The value 5 is a double. -/
theorem roundDouble_5 : roundDouble (5) = 5 := by
  rw [roundDouble_eq_of (e := 2) (n := 5629499534213120) (by norm_num) (by norm_num) (by norm_num)
    (by rw [abs_lt]; constructor <;> norm_num)]
  norm_num

/-- The value 7 is a double. -/
theorem roundDouble_7 : roundDouble (7) = 7 := by
  rw [roundDouble_eq_of (e := 2) (n := 7881299347898368) (by norm_num) (by norm_num) (by norm_num)
    (by rw [abs_lt]; constructor <;> norm_num)]
  norm_num

/-- The value 9 is a double. -/
theorem roundDouble_9 : roundDouble (9) = 9 := by
  rw [roundDouble_eq_of (e := 3) (n := 5066549580791808) (by norm_num) (by norm_num) (by norm_num)
    (by rw [abs_lt]; constructor <;> norm_num)]
  norm_num

/-- The value 10 is a double. -/
theorem roundDouble_10 : roundDouble (10) = 10 := by
  rw [roundDouble_eq_of (e := 3) (n := 5629499534213120) (by norm_num) (by norm_num) (by norm_num)
    (by rw [abs_lt]; constructor <;> norm_num)]
  norm_num

/-- The double written `10.04`. -/
theorem roundDouble_1004_cents : roundDouble (1004 / 100) = 1413004383087493 / 140737488355328 := by
  rw [roundDouble_eq_of (e := 3) (n := 5652017532349972) (by norm_num) (by norm_num) (by norm_num)
    (by rw [abs_lt]; constructor <;> norm_num)]
  norm_num

/-- The value 72 is a double. -/
theorem roundDouble_72 : roundDouble (72) = 72 := by
  rw [roundDouble_eq_of (e := 6) (n := 5066549580791808) (by norm_num) (by norm_num) (by norm_num)
    (by rw [abs_lt]; constructor <;> norm_num)]
  norm_num

/-- The product `72 * 0.3527778` in binary64. -/
theorem roundDouble_72_points : roundDouble (57195718870484997 / 2251799813685248) = 7149464858810625 / 281474976710656 := by
  rw [roundDouble_eq_of (e := 4) (n := 7149464858810625) (by norm_num) (by norm_num) (by norm_num)
    (by rw [abs_lt]; constructor <;> norm_num)]
  norm_num

/-- The double written `0.18`. -/
theorem roundDouble_18_cents : roundDouble (18 / 100) = 3242591731706757 / 18014398509481984 := by
  rw [roundDouble_eq_of (e := -3) (n := 6485183463413514) (by norm_num) (by norm_num) (by norm_num)
    (by rw [abs_lt]; constructor <;> norm_num)]
  norm_num

/-- The double written `2.65`. -/
theorem roundDouble_265_cents : roundDouble (265 / 100) = 5967269506265907 / 2251799813685248 := by
  rw [roundDouble_eq_of (e := 1) (n := 5967269506265907) (by norm_num) (by norm_num) (by norm_num)
    (by rw [abs_lt]; constructor <;> norm_num)]
  norm_num

/-- The double `0.18` rounds to itself. -/
theorem roundDouble_18_cents_value : roundDouble (3242591731706757 / 18014398509481984) = 3242591731706757 / 18014398509481984 := by
  rw [roundDouble_eq_of (e := -3) (n := 6485183463413514) (by norm_num) (by norm_num) (by norm_num)
    (by rw [abs_lt]; constructor <;> norm_num)]
  norm_num

/-- Binary64 sum `0.18 + 0.35`. -/
theorem roundDouble_sum_18_35 : roundDouble (9547631210025451 / 18014398509481984) = 2386907802506363 / 4503599627370496 := by
  rw [roundDouble_eq_of_tie (e := -1) (n := 4773815605012726) (by norm_num) (by norm_num) (by norm_num)
    (by decide) (by rw [abs_of_neg (by norm_num)]; norm_num)]
  norm_num

/-- Binary64 sum `(0.18 + 0.35) + 2.65`. -/
theorem roundDouble_sum_18_35_265 : roundDouble (14321446815038177 / 4503599627370496) = 447545212969943 / 140737488355328 := by
  rw [roundDouble_eq_of_tie (e := 1) (n := 7160723407519088) (by norm_num) (by norm_num) (by norm_num)
    (by decide) (by rw [abs_of_pos (by norm_num)]; norm_num)]
  norm_num

/-- Binary64 quotient `((0.18 + 0.35) + 2.65) / 4`. -/
theorem roundDouble_avg_18_35_265 : roundDouble (447545212969943 / 562949953421312) = 447545212969943 / 562949953421312 := by
  rw [roundDouble_eq_of (e := -1) (n := 7160723407519088) (by norm_num) (by norm_num) (by norm_num)
    (by rw [abs_lt]; constructor <;> norm_num)]
  norm_num

/-- Binary64 sum `0.18 + 2.65`. -/
theorem roundDouble_sum_18_265 : roundDouble (50980747781834013 / 18014398509481984) = 1593148368182313 / 562949953421312 := by
  rw [roundDouble_eq_of (e := 1) (n := 6372593472729252) (by norm_num) (by norm_num) (by norm_num)
    (by rw [abs_lt]; constructor <;> norm_num)]
  norm_num

/-- Binary64 sum `(0.18 + 2.65) + 0.35`. -/
theorem roundDouble_sum_18_265_35 : roundDouble (28642893630076355 / 9007199254740992) = 7160723407519089 / 2251799813685248 := by
  rw [roundDouble_eq_of (e := 1) (n := 7160723407519089) (by norm_num) (by norm_num) (by norm_num)
    (by rw [abs_lt]; constructor <;> norm_num)]
  norm_num

/-- Binary64 quotient `((0.18 + 2.65) + 0.35) / 4`. -/
theorem roundDouble_avg_18_265_35 : roundDouble (7160723407519089 / 9007199254740992) = 7160723407519089 / 9007199254740992 := by
  rw [roundDouble_eq_of (e := -1) (n := 7160723407519089) (by norm_num) (by norm_num) (by norm_num)
    (by rw [abs_lt]; constructor <;> norm_num)]
  norm_num

/-- The value 1.5 is a double. -/
theorem roundDouble_3_halves : roundDouble (3 / 2) = 3 / 2 := by
  rw [roundDouble_eq_of (e := 0) (n := 6755399441055744) (by norm_num) (by norm_num) (by norm_num)
    (by rw [abs_lt]; constructor <;> norm_num)]
  norm_num

/-- The double written `1.23`. -/
theorem roundDouble_123_cents : roundDouble (123 / 100) = 2769713770832855 / 2251799813685248 := by
  rw [roundDouble_eq_of (e := 0) (n := 5539427541665710) (by norm_num) (by norm_num) (by norm_num)
    (by rw [abs_lt]; constructor <;> norm_num)]
  norm_num

/-- The double written `4.23`. -/
theorem roundDouble_423_cents : roundDouble (423 / 100) = 1190639151486075 / 281474976710656 := by
  rw [roundDouble_eq_of (e := 2) (n := 4762556605944300) (by norm_num) (by norm_num) (by norm_num)
    (by rw [abs_lt]; constructor <;> norm_num)]
  norm_num

/-- Binary64 difference `4.23 - 1.23`. -/
theorem roundDouble_diff_423_123 : roundDouble (6755399441055745 / 2251799813685248) = 6755399441055745 / 2251799813685248 := by
  rw [roundDouble_eq_of (e := 1) (n := 6755399441055745) (by norm_num) (by norm_num) (by norm_num)
    (by rw [abs_lt]; constructor <;> norm_num)]
  norm_num

/-- The value 3.5 is a double. -/
theorem roundDouble_7_halves : roundDouble (7 / 2) = 7 / 2 := by
  rw [roundDouble_eq_of (e := 1) (n := 7881299347898368) (by norm_num) (by norm_num) (by norm_num)
    (by rw [abs_lt]; constructor <;> norm_num)]
  norm_num

/-- Binary64 product `3.5 * 0.3527778`. -/
theorem roundDouble_7_halves_mm : roundDouble (44485559121488331 / 36028797018963968) = 5560694890186041 / 4503599627370496 := by
  rw [roundDouble_eq_of (e := 0) (n := 5560694890186041) (by norm_num) (by norm_num) (by norm_num)
    (by rw [abs_lt]; constructor <;> norm_num)]
  norm_num

/-- Binary64 product `12 * 0.3527778`. -/
theorem roundDouble_12_mm : roundDouble (19065239623494999 / 4503599627370496) = 2383154952936875 / 562949953421312 := by
  rw [roundDouble_eq_of (e := 2) (n := 4766309905873750) (by norm_num) (by norm_num) (by norm_num)
    (by rw [abs_lt]; constructor <;> norm_num)]
  norm_num

/-- The value 25000 is a double. -/
theorem roundDouble_25000 : roundDouble (25000) = 25000 := by
  rw [roundDouble_eq_of (e := 14) (n := 6871947673600000) (by norm_num) (by norm_num) (by norm_num)
    (by rw [abs_lt]; constructor <;> norm_num)]
  norm_num

/-- Binary64 product `25000 * 0.3527778`. -/
theorem roundDouble_25000_mm : roundDouble (19859624607807290625 / 2251799813685248) = 1212135291003863 / 137438953472 := by
  rw [roundDouble_eq_of (e := 13) (n := 4848541164015452) (by norm_num) (by norm_num) (by norm_num)
    (by rw [abs_lt]; constructor <;> norm_num)]
  norm_num

/-- The value 75000 is a double. -/
theorem roundDouble_75000 : roundDouble (75000) = 75000 := by
  rw [roundDouble_eq_of (e := 16) (n := 5153960755200000) (by norm_num) (by norm_num) (by norm_num)
    (by rw [abs_lt]; constructor <;> norm_num)]
  norm_num

/-- Binary64 product `75000 * 0.3527778`. -/
theorem roundDouble_75000_mm : roundDouble (59578873823421871875 / 2251799813685248) = 3636405873011589 / 137438953472 := by
  rw [roundDouble_eq_of (e := 14) (n := 7272811746023178) (by norm_num) (by norm_num) (by norm_num)
    (by rw [abs_lt]; constructor <;> norm_num)]
  norm_num

/-- The value 12 is a double. -/
theorem roundDouble_12 : roundDouble (12) = 12 := by
  rw [roundDouble_eq_of (e := 3) (n := 6755399441055744) (by norm_num) (by norm_num) (by norm_num)
    (by rw [abs_lt]; constructor <;> norm_num)]
  norm_num

/-! ## Relative error of a rounding -/

theorem abs_roundHalfEven_sub_le (y : ℚ) : |(roundHalfEven y : ℚ) - y| ≤ 1 / 2 := by
  have h1 : (⌊y⌋ : ℚ) ≤ y := Int.floor_le y
  have h2 : y < ⌊y⌋ + 1 := Int.lt_floor_add_one y
  rw [abs_le]
  unfold roundHalfEven
  split_ifs <;> push_cast <;> constructor <;> linarith

theorem roundDouble_pos {x : ℚ} (hx : 0 < x) : 0 < roundDouble x :=
  lt_of_lt_of_le (zpow_pos (by norm_num) _) (roundDouble_mem_binade hx).1

/-- A rounding moves a value by at most half a unit in the last place, which
is at most `2^-53` of its magnitude. -/
theorem abs_roundDouble_sub_le {x : ℚ} (hx : 0 ≤ x) :
    |roundDouble x - x| ≤ x / 9007199254740992 := by
  rcases eq_or_lt_of_le hx with h0 | hpos
  · rw [← h0, roundDouble_zero]
    simp
  · have hu := ulp_pos x
    have e1 : (2 : ℚ) ^ binade x = 4503599627370496 * ulp x := by
      unfold ulp
      rw [show binade x = 52 + (binade x - 52) by ring, zpow_add₀ (by norm_num)]
      rw [show 52 + (binade x - 52) - 52 = binade x - 52 by ring]
      norm_num
    have hlow : 4503599627370496 * ulp x ≤ x := by
      rw [← e1]
      exact zpow_binade_le hpos
    have hr := abs_roundHalfEven_sub_le (x / ulp x)
    have hd : roundDouble x - x = ((roundHalfEven (x / ulp x) : ℚ) - x / ulp x) * ulp x := by
      unfold roundDouble
      field_simp
    rw [hd, abs_mul, abs_of_pos hu]
    have h3 : |(roundHalfEven (x / ulp x) : ℚ) - x / ulp x| * ulp x ≤ 1 / 2 * ulp x :=
      mul_le_mul_of_nonneg_right hr (le_of_lt hu)
    linarith

theorem roundDouble_le_mul {x : ℚ} (hx : 0 ≤ x) :
    roundDouble x ≤ x * (9007199254740993 / 9007199254740992) := by
  have h := (abs_le.mp (abs_roundDouble_sub_le hx)).2
  linarith

theorem mul_le_roundDouble {x : ℚ} (hx : 0 ≤ x) :
    x * (9007199254740991 / 9007199254740992) ≤ roundDouble x := by
  have h := (abs_le.mp (abs_roundDouble_sub_le hx)).1
  linarith

theorem abs_roundDouble_sub_le_abs (x : ℚ) :
    |roundDouble x - x| ≤ |x| / 9007199254740992 := by
  rcases le_or_lt 0 x with hx | hx
  · rw [abs_of_nonneg hx]
    exact abs_roundDouble_sub_le hx
  · have h := abs_roundDouble_sub_le (x := -x) (by linarith)
    rw [roundDouble_neg] at h
    rw [abs_of_neg hx]
    have e : -roundDouble x - -x = -(roundDouble x - x) := by ring
    rwa [e, abs_neg] at h

/-- The binary64 difference of two rounded values stays within `2^-51` times
the magnitudes of the exact difference. -/
theorem abs_roundDouble_diff_sub_le (A B : ℚ) :
    |roundDouble (roundDouble A - roundDouble B) - (A - B)| ≤
      (|A| + |B|) / 2251799813685248 := by
  have hA := abs_le.mp (abs_roundDouble_sub_le_abs A)
  have hB := abs_le.mp (abs_roundDouble_sub_le_abs B)
  have hX := abs_le.mp (abs_roundDouble_sub_le_abs (roundDouble A - roundDouble B))
  have a1 := le_abs_self A
  have a2 := neg_abs_le A
  have b1 := le_abs_self B
  have b2 := neg_abs_le B
  have a0 := abs_nonneg A
  have b0 := abs_nonneg B
  have hx : |roundDouble A - roundDouble B| ≤
      (|A| + |B|) * (9007199254740993 / 9007199254740992) := by
    rw [abs_le]
    constructor <;> linarith [hA.1, hA.2, hB.1, hB.2]
  rw [abs_le]
  constructor <;> linarith [hA.1, hA.2, hB.1, hB.2, hX.1, hX.2]

/-! ## Bleed flags -/

theorem mmPerPoint_eq : mmPerPoint = 6355079874498333 / 18014398509481984 := by
  unfold mmPerPoint
  exact roundDouble_mmPerPoint_literal

theorem detectMargins_samplePage :
    detectMargins samplePage.data samplePage.width samplePage.height =
      { top := 2, bottom := 1, left := 1, right := 1 } := by
  decide

theorem toFixed2_eq_of {x : ℚ} {c : ℕ} (h0 : 0 ≤ x) (h1 : (c : ℚ) ≤ x * 100 + 1 / 2)
    (h2 : x * 100 + 1 / 2 < (c : ℚ) + 1) : toFixed2 x = { neg := false, cents := c } := by
  unfold toFixed2
  rw [abs_of_nonneg h0]
  have hn : ¬ x < 0 := not_lt.mpr h0
  have hf : ⌊x * 100 + 1 / 2⌋₊ = c := by
    rw [Nat.floor_eq_iff (by linarith)]
    exact ⟨h1, h2⟩
  rw [hf]
  simp [hn]

theorem pxToMm_two_two : pxToMm 2 2 = 6355079874498333 / 18014398509481984 := by
  unfold pxToMm numMul numDiv
  rw [mmPerPoint_eq, show (((2 : ℕ) : ℚ) / 2) = 1 by norm_num, roundDouble_one, one_mul]
  exact roundDouble_mmPerPoint_value

/-- Claim C2, counterexample. On `samplePage` (top margin 2 pixels at scale 2)
with `bleedSize = 0.35`, the stored top margin is the text `0.35`, which is
`≤ bleedSize` (it is equal to it), yet `hasTopBleed` is false: the flag
compares the unrounded 0.3527778. -/
theorem bleed_flag_ignores_rounded_margin :
    (analyzeRendered (.fin (parseFixed2 ⟨false, 35⟩)) 1 samplePage).margins.top = ⟨false, 35⟩ ∧
    jsLe (.fin (parseFixed2
        (analyzeRendered (.fin (parseFixed2 ⟨false, 35⟩)) 1 samplePage).margins.top))
      (analyzeRendered (.fin (parseFixed2 ⟨false, 35⟩)) 1 samplePage).bleed.size = true ∧
    (analyzeRendered (.fin (parseFixed2 ⟨false, 35⟩)) 1 samplePage).bleed.hasTopBleed
      = false := by
  have hm : (analyzeRendered (.fin (parseFixed2 ⟨false, 35⟩)) 1 samplePage).margins.top
      = ⟨false, 35⟩ := by
    simp only [analyzeRendered, detectMargins_samplePage]
    rw [show samplePage.scale = 2 from rfl, pxToMm_two_two]
    exact toFixed2_eq_of (by norm_num) (by norm_num) (by norm_num)
  refine ⟨hm, ?_, ?_⟩
  · rw [hm]
    simp [analyzeRendered, jsLe]
  · simp only [analyzeRendered, detectMargins_samplePage]
    rw [show samplePage.scale = 2 from rfl, pxToMm_two_two]
    have hp : parseFixed2 ⟨false, 35⟩ = 3152519739159347 / 9007199254740992 := by
      unfold parseFixed2
      simp only [Bool.false_eq_true, if_false]
      rw [show (((35 : ℕ) : ℚ) / 100) = 35 / 100 by norm_num]
      exact roundDouble_35_cents
    rw [hp]
    simp only [jsLe, decide_eq_false_iff_not, not_le]
    norm_num

/-- Claim C2, amended. For every analysed page, render scale and `bleedSize`,
each bleed flag is true exactly when the unrounded millimetre value
`(P / S) × 0.3527778` of that edge is `≤ bleedSize`; the stored margin is that
same value rounded to 2 decimals. The comparison is inclusive: an edge whose
unrounded value equals `bleedSize` is flagged. -/
theorem bleed_flags_compare_unrounded (bleedSize : JSNumber) (pageNum : Nat)
    (page : RenderedPage) :
    ((analyzeRendered bleedSize pageNum page).bleed.hasTopBleed = true ↔
      jsLe (.fin (pxToMm page.scale
        (detectMargins page.data page.width page.height).top)) bleedSize = true) ∧
    ((analyzeRendered bleedSize pageNum page).bleed.hasBottomBleed = true ↔
      jsLe (.fin (pxToMm page.scale
        (detectMargins page.data page.width page.height).bottom)) bleedSize = true) ∧
    ((analyzeRendered bleedSize pageNum page).bleed.hasLeftBleed = true ↔
      jsLe (.fin (pxToMm page.scale
        (detectMargins page.data page.width page.height).left)) bleedSize = true) ∧
    ((analyzeRendered bleedSize pageNum page).bleed.hasRightBleed = true ↔
      jsLe (.fin (pxToMm page.scale
        (detectMargins page.data page.width page.height).right)) bleedSize = true) ∧
    (analyzeRendered bleedSize pageNum page).margins =
      { top := toFixed2 (pxToMm page.scale
          (detectMargins page.data page.width page.height).top)
        bottom := toFixed2 (pxToMm page.scale
          (detectMargins page.data page.width page.height).bottom)
        left := toFixed2 (pxToMm page.scale
          (detectMargins page.data page.width page.height).left)
        right := toFixed2 (pxToMm page.scale
          (detectMargins page.data page.width page.height).right) } ∧
    (bleedSize = .fin (pxToMm page.scale
        (detectMargins page.data page.width page.height).top) →
      (analyzeRendered bleedSize pageNum page).bleed.hasTopBleed = true) ∧
    (bleedSize = .fin (pxToMm page.scale
        (detectMargins page.data page.width page.height).bottom) →
      (analyzeRendered bleedSize pageNum page).bleed.hasBottomBleed = true) ∧
    (bleedSize = .fin (pxToMm page.scale
        (detectMargins page.data page.width page.height).left) →
      (analyzeRendered bleedSize pageNum page).bleed.hasLeftBleed = true) ∧
    (bleedSize = .fin (pxToMm page.scale
        (detectMargins page.data page.width page.height).right) →
      (analyzeRendered bleedSize pageNum page).bleed.hasRightBleed = true) := by
  refine ⟨Iff.rfl, Iff.rfl, Iff.rfl, Iff.rfl, rfl, ?_, ?_, ?_, ?_⟩ <;>
  · intro hb
    simp only [analyzeRendered]
    rw [hb]
    simp [jsLe]

/-- Witness for C2 (amended): on `samplePage` with `bleedSize` equal to the
unrounded top margin, the top edge is flagged. -/
theorem bleed_flags_compare_unrounded_witness :
    (analyzeRendered
      (.fin (pxToMm samplePage.scale
        (detectMargins samplePage.data samplePage.width samplePage.height).top))
      1 samplePage).bleed.hasTopBleed = true :=
  (bleed_flags_compare_unrounded
    (.fin (pxToMm samplePage.scale
      (detectMargins samplePage.data samplePage.width samplePage.height).top))
    1 samplePage).2.2.2.2.2.1 rfl

/-! ## Uniformity verdicts -/

theorem foldl_max_isGreatest (v : ℚ) (vs : List ℚ) :
    IsGreatest {x | x ∈ v :: vs} (vs.foldl max v) := by
  induction vs generalizing v with
  | nil => exact ⟨by simp, fun x hx => by simp at hx; simp [hx]⟩
  | cons w ws ih =>
    obtain ⟨h1, h2⟩ := ih (max v w)
    rw [List.foldl_cons]
    constructor
    · rcases List.mem_cons.mp h1 with h | h
      · rw [h]
        rcases max_choice v w with hc | hc <;> rw [hc] <;> simp
      · exact List.mem_cons_of_mem _ (List.mem_cons_of_mem _ h)
    · intro x hx
      rcases List.mem_cons.mp hx with h | h
      · rw [h]
        exact le_trans (le_max_left v w) (h2 (List.mem_cons_self _ _))
      · rcases List.mem_cons.mp h with h3 | h3
        · rw [h3]
          exact le_trans (le_max_right v w) (h2 (List.mem_cons_self _ _))
        · exact h2 (List.mem_cons_of_mem _ h3)

theorem foldl_min_isLeast (v : ℚ) (vs : List ℚ) :
    IsLeast {x | x ∈ v :: vs} (vs.foldl min v) := by
  induction vs generalizing v with
  | nil => exact ⟨by simp, fun x hx => by simp at hx; simp [hx]⟩
  | cons w ws ih =>
    obtain ⟨h1, h2⟩ := ih (min v w)
    rw [List.foldl_cons]
    constructor
    · rcases List.mem_cons.mp h1 with h | h
      · rw [h]
        rcases min_choice v w with hc | hc <;> rw [hc] <;> simp
      · exact List.mem_cons_of_mem _ (List.mem_cons_of_mem _ h)
    · intro x hx
      rcases List.mem_cons.mp hx with h | h
      · rw [h]
        exact le_trans (h2 (List.mem_cons_self _ _)) (min_le_left v w)
      · rcases List.mem_cons.mp h with h3 | h3
        · rw [h3]
          exact le_trans (h2 (List.mem_cons_self _ _)) (min_le_right v w)
        · exact h2 (List.mem_cons_of_mem _ h3)

/-- For a non-empty array `Math.max` and `Math.min` are its greatest and its
least element. -/
theorem mathMax_mathMin_spec (values : List ℚ) (hne : values ≠ []) :
    ∃ M m, mathMax values = .fin M ∧ mathMin values = .fin m ∧
      IsGreatest {x | x ∈ values} M ∧ IsLeast {x | x ∈ values} m := by
  cases values with
  | nil => exact absurd rfl hne
  | cons v vs =>
    exact ⟨vs.foldl max v, vs.foldl min v, rfl, rfl, foldl_max_isGreatest v vs,
      foldl_min_isLeast v vs⟩

theorem jsLe_fin_mono {a b : ℚ} (h : a ≤ b) (t : JSNumber) (hb : jsLe (.fin b) t = true) :
    jsLe (.fin a) t = true := by
  cases t with
  | nan => simp [jsLe] at hb
  | posInf => simp [jsLe]
  | negInf => simp [jsLe] at hb
  | fin q =>
    simp only [jsLe, decide_eq_true_eq] at hb ⊢
    exact le_trans h hb

/-- The verdict of `isUniform` on a non-empty array, in terms of its greatest
and least element and in terms of all pairs of elements. -/
theorem isUniform_spec (values : List ℚ) (hne : values ≠ []) (t : JSNumber) :
    ∃ M m, IsGreatest {x | x ∈ values} M ∧ IsLeast {x | x ∈ values} m ∧
      (isUniform values t = true ↔ jsLe (.fin (numSub M m)) t = true) ∧
      (isUniform values t = true ↔
        ∀ a, a ∈ values → ∀ b, b ∈ values → jsLe (.fin (numSub a b)) t = true) := by
  obtain ⟨M, m, hM, hm, gM, lm⟩ := mathMax_mathMin_spec values hne
  have h1 : isUniform values t = true ↔ jsLe (.fin (numSub M m)) t = true := by
    unfold isUniform
    rw [hM, hm]
    rfl
  refine ⟨M, m, gM, lm, h1, h1.trans ⟨fun h a ha b hb => ?_, fun h => h M gM.1 m lm.1⟩⟩
  have hab : a - b ≤ M - m := sub_le_sub (gM.2 ha) (lm.2 hb)
  exact jsLe_fin_mono (roundDouble_mono hab) t h

theorem displayUniformityReport_verdict (s : Inspector) (e : Edge) :
    e.verdict (displayUniformityReport s).uniformityStatus =
      isUniform (edgeValues e s.analysisResults) s.marginThreshold := by
  cases e <;> rfl

theorem displayUniformityReport_allUniform (s : Inspector) :
    (displayUniformityReport s).allUniform = true ↔
      ∀ e : Edge, e.verdict (displayUniformityReport s).uniformityStatus = true := by
  constructor
  · intro h e
    simp only [displayUniformityReport, List.all_cons, List.all_nil, Bool.and_true,
      Bool.and_eq_true] at h
    cases e
    · exact h.1
    · exact h.2.1
    · exact h.2.2.1
    · exact h.2.2.2
  · intro h
    simp only [displayUniformityReport, List.all_cons, List.all_nil, Bool.and_true,
      Bool.and_eq_true]
    exact ⟨h .top, h .bottom, h .left, h .right⟩

theorem parseFixed2_nonneg_cents (c : ℕ) :
    parseFixed2 ⟨false, c⟩ = roundDouble ((c : ℚ) / 100) := by
  simp [parseFixed2]

theorem numSub_le_of_le {a b c : ℚ} (h : a - b ≤ c) (hc : roundDouble c = c) :
    numSub a b ≤ c := by
  unfold numSub
  rw [← hc]
  exact roundDouble_mono h

theorem edgeValues_top_pair (p q : PageResult) :
    edgeValues .top [p, q] = [parseFixed2 p.margins.top, parseFixed2 q.margins.top] := rfl

theorem isGreatest_map_roundDouble {values : List ℚ} {M : ℚ}
    (h : IsGreatest {x | x ∈ values} M) :
    IsGreatest {x | x ∈ values.map roundDouble} (roundDouble M) := by
  constructor
  · exact List.mem_map.mpr ⟨M, h.1, rfl⟩
  · intro y hy
    obtain ⟨x, hx, rfl⟩ := List.mem_map.mp hy
    exact roundDouble_mono (h.2 hx)

theorem isLeast_map_roundDouble {values : List ℚ} {m : ℚ}
    (h : IsLeast {x | x ∈ values} m) :
    IsLeast {x | x ∈ values.map roundDouble} (roundDouble m) := by
  constructor
  · exact List.mem_map.mpr ⟨m, h.1, rfl⟩
  · intro y hy
    obtain ⟨x, hx, rfl⟩ := List.mem_map.mp hy
    exact roundDouble_mono (h.2 hx)

/-- The verdict of `isUniform` on the parsed values of stored decimals, in
terms of the greatest and least decimal. -/
theorem isUniform_map_roundDouble (values : List ℚ) (hne : values ≠ []) (t : JSNumber) :
    ∃ M m, IsGreatest {x | x ∈ values} M ∧ IsLeast {x | x ∈ values} m ∧
      (isUniform (values.map roundDouble) t = true ↔
        jsLe (.fin (roundDouble (roundDouble M - roundDouble m))) t = true) ∧
      (isUniform (values.map roundDouble) t = true ↔
        ∀ a, a ∈ values → ∀ b, b ∈ values →
          jsLe (.fin (roundDouble (roundDouble a - roundDouble b))) t = true) := by
  obtain ⟨M, m, -, -, gM, lm⟩ := mathMax_mathMin_spec values hne
  have hne2 : values.map roundDouble ≠ [] := by simpa using hne
  obtain ⟨M2, m2, gM2, lm2, h1, h2⟩ := isUniform_spec (values.map roundDouble) hne2 t
  have eM : M2 = roundDouble M := gM2.unique (isGreatest_map_roundDouble gM)
  have em : m2 = roundDouble m := lm2.unique (isLeast_map_roundDouble lm)
  rw [eM, em] at h1
  refine ⟨M, m, gM, lm, h1, h2.trans ⟨fun h a ha b hb => ?_, fun h a2 ha2 b2 hb2 => ?_⟩⟩
  · exact h _ (List.mem_map.mpr ⟨a, ha, rfl⟩) _ (List.mem_map.mpr ⟨b, hb, rfl⟩)
  · obtain ⟨a, ha, rfl⟩ := List.mem_map.mp ha2
    obtain ⟨b, hb, rfl⟩ := List.mem_map.mp hb2
    exact h a ha b hb

/-- Claim C3, counterexample. Top margins of 7 and 24 pixels at scale 2 are
stored as `1.23` and `4.23`; the stored values differ by exactly 3.00, which
is `≤ 3`, yet with `marginThreshold = 3` the top verdict is false, because the
binary64 difference `4.23 - 1.23` is `3.0000000000000004`. -/
theorem uniformity_verdict_not_decimal :
    toFixed2 (pxToMm 2 7) = ⟨false, 123⟩ ∧
    toFixed2 (pxToMm 2 24) = ⟨false, 423⟩ ∧
    (⟨false, 423⟩ : Fixed2).value - (⟨false, 123⟩ : Fixed2).value ≤ 3 ∧
    (displayUniformityReport (inspectorWith [resultWithMargins 1 123 1000 1000 1000,
        resultWithMargins 2 423 1000 1000 1000] (.fin 3))).uniformityStatus.top = false := by
  refine ⟨?_, ?_, ?_, ?_⟩
  · have h : pxToMm 2 7 = 5560694890186041 / 4503599627370496 := by
      unfold pxToMm numMul numDiv
      rw [mmPerPoint_eq, show (((7 : ℕ) : ℚ) / 2) = 7 / 2 by norm_num, roundDouble_7_halves,
        show (7 / 2 : ℚ) * (6355079874498333 / 18014398509481984) =
          44485559121488331 / 36028797018963968 by norm_num]
      exact roundDouble_7_halves_mm
    rw [h]
    exact toFixed2_eq_of (by norm_num) (by norm_num) (by norm_num)
  · have h : pxToMm 2 24 = 2383154952936875 / 562949953421312 := by
      unfold pxToMm numMul numDiv
      rw [mmPerPoint_eq, show (((24 : ℕ) : ℚ) / 2) = 12 by norm_num, roundDouble_12,
        show (12 : ℚ) * (6355079874498333 / 18014398509481984) =
          19065239623494999 / 4503599627370496 by norm_num]
      exact roundDouble_12_mm
    rw [h]
    exact toFixed2_eq_of (by norm_num) (by norm_num) (by norm_num)
  · simp only [Fixed2.value, Bool.false_eq_true, if_false]
    norm_num
  · have v123 : parseFixed2 ⟨false, 123⟩ = 2769713770832855 / 2251799813685248 := by
      rw [parseFixed2_nonneg_cents, show (((123 : ℕ) : ℚ) / 100) = 123 / 100 by norm_num]
      exact roundDouble_123_cents
    have v423 : parseFixed2 ⟨false, 423⟩ = 1190639151486075 / 281474976710656 := by
      rw [parseFixed2_nonneg_cents, show (((423 : ℕ) : ℚ) / 100) = 423 / 100 by norm_num]
      exact roundDouble_423_cents
    have hmax : max (2769713770832855 / 2251799813685248 : ℚ)
        (1190639151486075 / 281474976710656) = 1190639151486075 / 281474976710656 :=
      max_eq_right (by norm_num)
    have hmin : min (2769713770832855 / 2251799813685248 : ℚ)
        (1190639151486075 / 281474976710656) = 2769713770832855 / 2251799813685248 :=
      min_eq_left (by norm_num)
    have hsub : numSub (1190639151486075 / 281474976710656)
        (2769713770832855 / 2251799813685248) = 6755399441055745 / 2251799813685248 := by
      unfold numSub
      rw [show (1190639151486075 / 281474976710656 : ℚ) - 2769713770832855 / 2251799813685248
        = 6755399441055745 / 2251799813685248 by norm_num]
      exact roundDouble_diff_423_123
    simp only [displayUniformityReport, inspectorWith, resultWithMargins, List.map_cons,
      List.map_nil, v123, v423, isUniform, mathMax, mathMin, List.foldl_cons, List.foldl_nil,
      hmax, hmin, jsSub, hsub, jsLe, decide_eq_false_iff_not, not_le]
    norm_num

/-- Claim C3, amended. For a non-empty report and any `marginThreshold`, the
uniformity verdict of an edge is true iff the binary64 difference
`parseFloat(max) - parseFloat(min)` of the greatest and the least stored value
of that edge is `≤ marginThreshold`, equivalently iff no two pages have a
binary64 difference of their parsed values above `marginThreshold`. That
difference is within `2^-51 (|max| + |min|)` of the decimal difference
`max - min`, so the verdict is true when `max - min` is below the threshold by
that much and false when it is above it by that much. The overall verdict is
true exactly when the four edge verdicts are. -/
theorem uniformity_verdicts_binary64 (s : Inspector) (hne : s.analysisResults ≠ []) :
    (∀ e : Edge, ∃ M m,
      IsGreatest {x | x ∈ storedValues e s.analysisResults} M ∧
      IsLeast {x | x ∈ storedValues e s.analysisResults} m ∧
      (e.verdict (displayUniformityReport s).uniformityStatus = true ↔
        jsLe (.fin (roundDouble (roundDouble M - roundDouble m))) s.marginThreshold = true) ∧
      (e.verdict (displayUniformityReport s).uniformityStatus = true ↔
        ∀ a, a ∈ storedValues e s.analysisResults →
          ∀ b, b ∈ storedValues e s.analysisResults →
            jsLe (.fin (roundDouble (roundDouble a - roundDouble b)))
              s.marginThreshold = true) ∧
      |roundDouble (roundDouble M - roundDouble m) - (M - m)| ≤
        (|M| + |m|) / 2251799813685248 ∧
      (∀ q : ℚ, s.marginThreshold = .fin q →
        (M - m) + (|M| + |m|) / 2251799813685248 ≤ q →
        e.verdict (displayUniformityReport s).uniformityStatus = true) ∧
      (∀ q : ℚ, s.marginThreshold = .fin q →
        q < (M - m) - (|M| + |m|) / 2251799813685248 →
        e.verdict (displayUniformityReport s).uniformityStatus = false)) ∧
    ((displayUniformityReport s).allUniform = true ↔
      ∀ e : Edge, e.verdict (displayUniformityReport s).uniformityStatus = true) := by
  refine ⟨fun e => ?_, displayUniformityReport_allUniform s⟩
  have hv : storedValues e s.analysisResults ≠ [] := by
    unfold storedValues
    simpa using hne
  obtain ⟨M, m, gM, lm, h1, h2⟩ :=
    isUniform_map_roundDouble (storedValues e s.analysisResults) hv s.marginThreshold
  have hparse : ∀ f : Fixed2, parseFixed2 f = roundDouble f.value := fun _ => rfl
  have hev : edgeValues e s.analysisResults =
      (storedValues e s.analysisResults).map roundDouble := by
    simp [edgeValues, storedValues, hparse]
  rw [← hev, ← displayUniformityReport_verdict] at h1 h2
  have herr := abs_roundDouble_diff_sub_le M m
  have hb := abs_le.mp herr
  refine ⟨M, m, gM, lm, h1, h2, herr, fun q hq hle => ?_, fun q hq hlt => ?_⟩
  · rw [h1, hq]
    simp only [jsLe, decide_eq_true_eq]
    linarith [hb.2]
  · rw [Bool.eq_false_iff]
    intro hv2
    have h3 := h1.mp hv2
    rw [hq] at h3
    simp only [jsLe, decide_eq_true_eq] at h3
    linarith [hb.1]

/-- Witness for C3 (amended): top margins 10.00 and 10.04 with threshold 5 are
uniform; top margins 2.00 and 9.00 with threshold 5 are not. -/
theorem uniformity_verdicts_binary64_witness :
    (inspectorWith [resultWithMargins 1 1000 1000 1000 1000,
        resultWithMargins 2 1004 1000 1000 1000] (.fin 5)).analysisResults ≠ [] ∧
    (displayUniformityReport (inspectorWith [resultWithMargins 1 1000 1000 1000 1000,
        resultWithMargins 2 1004 1000 1000 1000] (.fin 5))).uniformityStatus.top = true ∧
    (displayUniformityReport (inspectorWith [resultWithMargins 1 200 1000 1000 1000,
        resultWithMargins 2 900 1000 1000 1000] (.fin 5))).uniformityStatus.top = false := by
  have hne1 : (inspectorWith [resultWithMargins 1 1000 1000 1000 1000,
      resultWithMargins 2 1004 1000 1000 1000] (.fin 5)).analysisResults ≠ [] := by
    simp [inspectorWith]
  have hne2 : (inspectorWith [resultWithMargins 1 200 1000 1000 1000,
      resultWithMargins 2 900 1000 1000 1000] (.fin 5)).analysisResults ≠ [] := by
    simp [inspectorWith]
  have hv1 : storedValues .top (inspectorWith [resultWithMargins 1 1000 1000 1000 1000,
      resultWithMargins 2 1004 1000 1000 1000] (.fin 5)).analysisResults =
      [10, 251 / 25] := by
    simp only [storedValues, inspectorWith, resultWithMargins, Edge.margin, Fixed2.value,
      List.map_cons, List.map_nil, Bool.false_eq_true, if_false]
    norm_num
  have hv2 : storedValues .top (inspectorWith [resultWithMargins 1 200 1000 1000 1000,
      resultWithMargins 2 900 1000 1000 1000] (.fin 5)).analysisResults = [2, 9] := by
    simp only [storedValues, inspectorWith, resultWithMargins, Edge.margin, Fixed2.value,
      List.map_cons, List.map_nil, Bool.false_eq_true, if_false]
    norm_num
  refine ⟨hne1, ?_, ?_⟩
  · obtain ⟨M, m, gM, lm, -, -, -, hsuff, -⟩ := (uniformity_verdicts_binary64 _ hne1).1 .top
    have hM := gM.1
    have hm := lm.1
    rw [hv1] at hM hm
    simp only [Set.mem_setOf_eq, List.mem_cons, List.mem_singleton, List.not_mem_nil,
      or_false] at hM hm
    refine hsuff 5 rfl ?_
    rcases hM with hM | hM <;> rcases hm with hm | hm <;> rw [hM, hm] <;> norm_num [abs_of_pos]
  · obtain ⟨M, m, gM, lm, -, -, -, -, hnec⟩ := (uniformity_verdicts_binary64 _ hne2).1 .top
    have hM9 : (9 : ℚ) ≤ M := gM.2 (by rw [hv2]; simp)
    have hm2 : m ≤ (2 : ℚ) := lm.2 (by rw [hv2]; simp)
    have hM := gM.1
    have hm := lm.1
    rw [hv2] at hM hm
    simp only [Set.mem_setOf_eq, List.mem_cons, List.mem_singleton, List.not_mem_nil,
      or_false] at hM hm
    have eM : M = 9 := by
      rcases hM with h | h
      · rw [h] at hM9
        norm_num at hM9
      · exact h
    have em : m = 2 := by
      rcases hm with h | h
      · exact h
      · rw [h] at hm2
        norm_num at hm2
    refine hnec 5 rfl ?_
    rw [eM, em]
    norm_num [abs_of_pos]

/-! ## Consistency of the first page, single-page reports -/

theorem abs_numSub_self (a : ℚ) : |numSub a a| = 0 := by
  unfold numSub
  rw [sub_self, roundDouble_zero, abs_zero]

/-- Claim C5, counterexample. With two pages and `marginThreshold = -1` the first
page is classified inconsistent. -/
theorem first_page_inconsistent_negative_threshold :
    isPageConsistent
      (inspectorWith [resultWithMargins 1 1000 1000 1000 1000,
        resultWithMargins 2 1000 1000 1000 1000] (.fin (-1)))
      (resultWithMargins 1 1000 1000 1000 1000) 0 = some false := by
  simp [isPageConsistent, inspectorWith, abs_numSub_self, jsLe]

/-- Claim C5, amended. For a report with at least one page, `isPageConsistent` on
the first page returns true exactly when the report has a single page or
`0 <= marginThreshold` holds (the threshold is a number that is not negative);
in every case it returns a verdict. -/
theorem first_page_consistent_iff (s : Inspector) (first : PageResult)
    (rest : List PageResult) (hs : s.analysisResults = first :: rest) :
    (isPageConsistent s first 0 = some true ↔
      (rest = [] ∨ jsLe (.fin 0) s.marginThreshold = true)) ∧
    (isPageConsistent s first 0).isSome = true := by
  unfold isPageConsistent
  rw [hs]
  by_cases hr : rest = []
  · simp [hr]
  · have hl : ¬ (first :: rest).length = 1 := by
      cases rest with
      | nil => exact absurd rfl hr
      | cons a as => simp
    simp only [hl, if_false, abs_numSub_self, Bool.and_self, Option.some.injEq, hr, false_or,
      Option.isSome_some, and_true]

/-- Witness for C5 (amended): two pages, threshold 5. -/
theorem first_page_consistent_iff_witness :
    (inspectorWith [resultWithMargins 1 1000 1000 1000 1000,
        resultWithMargins 2 2000 1000 1000 1000] (.fin 5)).analysisResults =
      resultWithMargins 1 1000 1000 1000 1000 :: [resultWithMargins 2 2000 1000 1000 1000] ∧
    isPageConsistent
      (inspectorWith [resultWithMargins 1 1000 1000 1000 1000,
        resultWithMargins 2 2000 1000 1000 1000] (.fin 5))
      (resultWithMargins 1 1000 1000 1000 1000) 0 = some true :=
  ⟨rfl, (first_page_consistent_iff
    (inspectorWith [resultWithMargins 1 1000 1000 1000 1000,
        resultWithMargins 2 2000 1000 1000 1000] (.fin 5))
    (resultWithMargins 1 1000 1000 1000 1000) [resultWithMargins 2 2000 1000 1000 1000]
    rfl).1.mpr (Or.inr (by simp [inspectorWith, jsLe]))⟩

theorem isUniform_singleton (v : ℚ) (t : JSNumber) :
    isUniform [v] t = jsLe (.fin 0) t := by
  simp only [isUniform, mathMax, mathMin, List.foldl_nil, jsSub]
  unfold numSub
  rw [sub_self, roundDouble_zero]

/-- Claim C6, counterexample. A single-page report with `marginThreshold = -1`
has a false uniformity verdict for the top edge and a false overall verdict. -/
theorem single_page_not_uniform_negative_threshold :
    (displayUniformityReport
      (inspectorWith [resultWithMargins 1 1000 1000 1000 1000]
        (.fin (-1)))).uniformityStatus.top = false ∧
    (displayUniformityReport
      (inspectorWith [resultWithMargins 1 1000 1000 1000 1000]
        (.fin (-1)))).allUniform = false := by
  simp [displayUniformityReport, inspectorWith, isUniform_singleton, jsLe]

/-- Claim C6, amended. For a report holding exactly one page the page is
classified consistent for every `marginThreshold`, and each of the four edge
verdicts as well as the overall verdict equals `0 <= marginThreshold`: they are
true for every threshold that is a number and not negative. -/
theorem single_page_verdicts (s : Inspector) (r : PageResult)
    (hs : s.analysisResults = [r]) :
    isPageConsistent s r 0 = some true ∧
    (∀ e : Edge, e.verdict (displayUniformityReport s).uniformityStatus =
      jsLe (.fin 0) s.marginThreshold) ∧
    (displayUniformityReport s).allUniform = jsLe (.fin 0) s.marginThreshold ∧
    (jsLe (.fin 0) s.marginThreshold = true →
      (∀ e : Edge, e.verdict (displayUniformityReport s).uniformityStatus = true) ∧
      (displayUniformityReport s).allUniform = true) := by
  have hc : isPageConsistent s r 0 = some true := by
    simp [isPageConsistent, hs]
  have he : ∀ e : Edge, e.verdict (displayUniformityReport s).uniformityStatus =
      jsLe (.fin 0) s.marginThreshold := by
    intro e
    rw [displayUniformityReport_verdict, hs]
    exact isUniform_singleton _ _
  have ha : (displayUniformityReport s).allUniform = jsLe (.fin 0) s.marginThreshold := by
    have h1 := he .top
    have h2 := he .bottom
    have h3 := he .left
    have h4 := he .right
    simp only [Edge.verdict] at h1 h2 h3 h4
    show [(displayUniformityReport s).uniformityStatus.top,
      (displayUniformityReport s).uniformityStatus.bottom,
      (displayUniformityReport s).uniformityStatus.left,
      (displayUniformityReport s).uniformityStatus.right].all (fun v => v) = _
    rw [h1, h2, h3, h4]
    simp
  refine ⟨hc, he, ha, fun ht => ⟨fun e => ?_, ?_⟩⟩
  · rw [he e, ht]
  · rw [ha, ht]

/-- Witness for C6 (amended): one page with the default threshold 5. -/
theorem single_page_verdicts_witness :
    (inspectorWith [resultWithMargins 1 1000 1000 1000 1000] (.fin 5)).analysisResults =
      [resultWithMargins 1 1000 1000 1000 1000] ∧
    isPageConsistent (inspectorWith [resultWithMargins 1 1000 1000 1000 1000] (.fin 5))
      (resultWithMargins 1 1000 1000 1000 1000) 0 = some true ∧
    (displayUniformityReport
      (inspectorWith [resultWithMargins 1 1000 1000 1000 1000] (.fin 5))).allUniform = true :=
  have h := single_page_verdicts
    (inspectorWith [resultWithMargins 1 1000 1000 1000 1000] (.fin 5))
    (resultWithMargins 1 1000 1000 1000 1000) rfl
  ⟨rfl, h.1, (h.2.2.2 (by simp [inspectorWith, jsLe])).2⟩

/-! ## A failing document run -/

theorem analyzeLoop_until_failure (doc : PdfDoc) (pre : List RenderedPage) :
    ∀ (front post : List (Option RenderedPage)) (fuel : Nat) (s : Inspector),
      doc.pages = front ++ (pre.map some ++ none :: post) → pre.length < fuel →
      (analyzeLoop doc fuel (front.length + 1) s).1.analysisResults =
        s.analysisResults ++ resultsFrom s.bleedSize (front.length + 1) pre := by
  induction pre with
  | nil =>
    intro front post fuel s hp hf
    cases fuel with
    | zero => exact absurd hf (Nat.not_lt_zero _)
    | succ f =>
      have hget : doc.pages[front.length]? = some none := by
        rw [hp, List.getElem?_append_right (le_refl _)]
        simp
      simp [analyzeLoop, analyzePage, hget, resultsFrom]
  | cons p ps ih =>
    intro front post fuel s hp hf
    cases fuel with
    | zero => exact absurd hf (Nat.not_lt_zero _)
    | succ f =>
      have hget : doc.pages[front.length]? = some (some p) := by
        rw [hp, List.getElem?_append_right (le_refl _)]
        simp
      have hp2 : doc.pages = (front ++ [some p]) ++ (ps.map some ++ none :: post) := by
        rw [hp]
        simp
      have hlen : (front ++ [some p]).length = front.length + 1 := by simp
      have hf2 : ps.length < f := by
        simp only [List.length_cons] at hf
        omega
      have := ih (front ++ [some p]) post f
        { s with analysisResults :=
            s.analysisResults ++ [analyzeRendered s.bleedSize (front.length + 1) p] } hp2 hf2
      rw [hlen] at this
      simp only [analyzeLoop, analyzePage, Nat.add_sub_cancel, hget, resultsFrom]
      rw [this]
      simp

/-- Claim C7, counterexample. A fresh inspector (empty report) analyses a
two-page document whose second page fails to render: the stored report after
the run is the one-element list of page 1, not the report stored before. -/
theorem failed_run_leaves_incomplete_report :
    (∃ msg, analyzePage (inspectorLoaded [some samplePage, none])
      { pages := [some samplePage, none] } 2 = .error msg) ∧
    (analyzePDF (inspectorLoaded [some samplePage, none])).analysisResults =
      [analyzeRendered (.fin 3) 1 samplePage] ∧
    (analyzePDF (inspectorLoaded [some samplePage, none])).analysisResults ≠
      (inspectorLoaded [some samplePage, none]).analysisResults := by
  have h : (analyzePDF (inspectorLoaded [some samplePage, none])).analysisResults =
      [analyzeRendered (.fin 3) 1 samplePage] := by
    simp [analyzePDF, inspectorLoaded, Inspector.new, PdfDoc.numPages, analyzeLoop, analyzePage]
  refine ⟨⟨_, rfl⟩, h, ?_⟩
  rw [h]
  simp [inspectorLoaded, Inspector.new]

/-- Claim C7, amended. When the first page that fails is preceded by the pages
`pre`, the report stored after `analyzePDF` is exactly the results of `pre`, in
page order, whatever was stored before. With no document loaded the state is
untouched. -/
theorem failed_run_keeps_earlier_pages (s : Inspector) :
    (∀ (doc : PdfDoc) (pre : List RenderedPage) (post : List (Option RenderedPage)),
      s.pdfDoc = some doc → doc.pages = pre.map some ++ none :: post →
      (analyzePDF s).analysisResults = resultsFrom s.bleedSize 1 pre) ∧
    (s.pdfDoc = none → analyzePDF s = s) := by
  constructor
  · intro doc pre post hd hp
    have hlt : pre.length < doc.numPages := by
      unfold PdfDoc.numPages
      rw [hp]
      simp
    have := analyzeLoop_until_failure doc pre [] post doc.numPages
      { s with analysisResults := [] } (by simpa using hp) hlt
    simp only [analyzePDF, hd]
    simpa [hd] using this
  · intro hn
    simp [analyzePDF, hn]

/-- Witness for C7 (amended): three pages, the second fails; and an inspector
without a document. -/
theorem failed_run_keeps_earlier_pages_witness :
    (analyzePDF (inspectorLoaded [some samplePage, none, some samplePage])).analysisResults =
      resultsFrom (.fin 3) 1 [samplePage] ∧
    analyzePDF Inspector.new = Inspector.new :=
  ⟨(failed_run_keeps_earlier_pages (inspectorLoaded [some samplePage, none, some samplePage])).1
      { pages := [some samplePage, none, some samplePage] } [samplePage] [some samplePage]
      rfl rfl,
    (failed_run_keeps_earlier_pages Inspector.new).2 rfl⟩

/-! ## Settings -/

/-- Claim C8, counterexample. Entering `-1` as bleed size replaces the default 3
by -1, and entering text that is not a number as margin threshold replaces the
default 5 by `NaN`. -/
theorem invalid_setting_is_stored :
    (onBleedSizeChange Inspector.new (.fin (-1))).bleedSize ≠ Inspector.new.bleedSize ∧
    (onMarginThresholdChange Inspector.new .nan).marginThreshold ≠
      Inspector.new.marginThreshold := by
  constructor
  · simp only [onBleedSizeChange, Inspector.new, ne_eq, JSNumber.fin.injEq]
    norm_num
  · simp [onMarginThresholdChange, Inspector.new]

/-- Claim C8, amended. Whatever is entered, the change handler stores the result
of `parseFloat` of the entry as the new `bleedSize` (respectively
`marginThreshold`): a negative number is stored as it is and text that is not
a number is stored as `NaN`. The other setting and the stored report are left
as they were. -/
theorem setting_change_stores_parsed_value (s : Inspector) (parsed : JSNumber) :
    (onBleedSizeChange s parsed).bleedSize = parsed ∧
    (onBleedSizeChange s parsed).marginThreshold = s.marginThreshold ∧
    (onBleedSizeChange s parsed).analysisResults = s.analysisResults ∧
    (onMarginThresholdChange s parsed).marginThreshold = parsed ∧
    (onMarginThresholdChange s parsed).bleedSize = s.bleedSize ∧
    (onMarginThresholdChange s parsed).analysisResults = s.analysisResults :=
  ⟨rfl, rfl, rfl, rfl, rfl, rfl⟩

/-! ## Unit conversion -/

theorem pxToMm_half_scale (scale : ℚ) (px : Nat) :
    pxToMm (scale / 2) px = 2 * pxToMm scale px := by
  unfold pxToMm numMul numDiv
  rw [show (px : ℚ) / (scale / 2) = 2 * ((px : ℚ) / scale) by
    rw [div_div_eq_mul_div]; ring]
  rw [roundDouble_two_mul, mul_assoc, roundDouble_two_mul]

theorem pxToMm_nonneg {scale : ℚ} (hS : 0 < scale) (px : Nat) : 0 ≤ pxToMm scale px := by
  unfold pxToMm numMul numDiv
  apply roundDouble_nonneg
  apply mul_nonneg
  · exact roundDouble_nonneg (div_nonneg (Nat.cast_nonneg px) (le_of_lt hS))
  · rw [mmPerPoint_eq]
    norm_num

theorem toFixed2_neg_of_nonneg {x : ℚ} (hx : 0 ≤ x) : (toFixed2 x).neg = false := by
  simp [toFixed2, not_lt.mpr hx]

theorem numMul_72_mmPerPoint :
    numMul 72 mmPerPoint = 7149464858810625 / 281474976710656 := by
  unfold numMul
  rw [mmPerPoint_eq, show (72 : ℚ) * (6355079874498333 / 18014398509481984) =
    57195718870484997 / 2251799813685248 by norm_num]
  exact roundDouble_72_points

/-- The binary64 product with the double `0.3527778` is within `2.5 * 2^-53`
of the exact product with the decimal 0.3527778. -/
theorem abs_numMul_mmPerPoint_sub_le (a : ℚ) :
    |numMul a mmPerPoint - a * (3527778 / 10000000)| ≤
      |a| * (3527778 / 10000000) * (5 / 18014398509481984) := by
  unfold numMul
  rw [mmPerPoint_eq]
  have h := abs_le.mp (abs_roundDouble_sub_le_abs (a * (6355079874498333 / 18014398509481984)))
  rw [abs_mul, abs_of_pos (by norm_num : (0 : ℚ) < 6355079874498333 / 18014398509481984)] at h
  have a1 := le_abs_self a
  have a2 := neg_abs_le a
  have a0 := abs_nonneg a
  rw [abs_le]
  constructor <;> linarith [h.1, h.2]

/-- The binary64 value `(px / scale) * 0.3527778` is within `2^-51` of the
exact product, relatively. -/
theorem abs_pxToMm_sub_le {scale : ℚ} (hS : 0 < scale) (px : Nat) :
    |pxToMm scale px - (px : ℚ) / scale * (3527778 / 10000000)| ≤
      (px : ℚ) / scale * (3527778 / 10000000) / 2251799813685248 := by
  have hq : 0 ≤ (px : ℚ) / scale := div_nonneg (Nat.cast_nonneg px) (le_of_lt hS)
  have h1 := abs_le.mp (abs_roundDouble_sub_le hq)
  have h0 := roundDouble_nonneg hq
  have h2 := abs_le.mp (abs_numMul_mmPerPoint_sub_le (roundDouble ((px : ℚ) / scale)))
  rw [abs_of_nonneg h0] at h2
  unfold pxToMm numDiv
  rw [abs_le]
  constructor <;> linarith [h1.1, h1.2, h2.1, h2.2]

/-- Claim C9, counterexample. At scale 2 a margin of 50000 pixels has the exact
product `(50000 / 2) × 0.3527778 = 8819.445`, which rounds to 8819.45, but the
stored text is `8819.44`: the double nearest to 0.3527778 is slightly smaller
than the decimal, and so is the binary64 product. Likewise 150000 pixels:
exact 26458.335, which rounds to 26458.34 (also with ties to even), stored
`26458.33`. -/
theorem stored_margin_not_decimal_rounding :
    toFixed2 (pxToMm 2 50000) = ⟨false, 881944⟩ ∧
    ((50000 : ℕ) : ℚ) / 2 * (3527778 / 10000000) = 8819445 / 1000 ∧
    toFixed2 (((50000 : ℕ) : ℚ) / 2 * (3527778 / 10000000)) = ⟨false, 881945⟩ ∧
    toFixed2 (pxToMm 2 150000) = ⟨false, 2645833⟩ ∧
    ((150000 : ℕ) : ℚ) / 2 * (3527778 / 10000000) = 26458335 / 1000 ∧
    toFixed2 (((150000 : ℕ) : ℚ) / 2 * (3527778 / 10000000)) = ⟨false, 2645834⟩ ∧
    roundHalfEven (((150000 : ℕ) : ℚ) / 2 * (3527778 / 10000000) * 100) = 2645834 := by
  have h1 : pxToMm 2 50000 = 1212135291003863 / 137438953472 := by
    unfold pxToMm numMul numDiv
    rw [mmPerPoint_eq, show (((50000 : ℕ) : ℚ) / 2) = 25000 by norm_num, roundDouble_25000,
      show (25000 : ℚ) * (6355079874498333 / 18014398509481984) =
        19859624607807290625 / 2251799813685248 by norm_num]
    exact roundDouble_25000_mm
  have h2 : pxToMm 2 150000 = 3636405873011589 / 137438953472 := by
    unfold pxToMm numMul numDiv
    rw [mmPerPoint_eq, show (((150000 : ℕ) : ℚ) / 2) = 75000 by norm_num, roundDouble_75000,
      show (75000 : ℚ) * (6355079874498333 / 18014398509481984) =
        59578873823421871875 / 2251799813685248 by norm_num]
    exact roundDouble_75000_mm
  refine ⟨?_, by norm_num, ?_, ?_, by norm_num, ?_, ?_⟩
  · rw [h1]
    exact toFixed2_eq_of (by norm_num) (by norm_num) (by norm_num)
  · exact toFixed2_eq_of (by norm_num) (by norm_num) (by norm_num)
  · rw [h2]
    exact toFixed2_eq_of (by norm_num) (by norm_num) (by norm_num)
  · exact toFixed2_eq_of (by norm_num) (by norm_num) (by norm_num)
  · apply roundHalfEven_eq_of_tie _ _ (by decide)
    rw [abs_of_neg (by norm_num)]
    norm_num

/-- Claim C9, amended. For every analysed page with render scale `S > 0`, each
stored margin is `toFixed(2)` of the binary64 value `(P / S) × 0.3527778`, `P`
being the detected pixel offset of the edge. For every pixel offset that
binary64 value is within `2^-51` (relative) of the exact product and not
negative, and `toFixed(2)` prints the hundredth nearest to the exact value of
its argument, the larger one on a tie. The stored page width and height are
`toFixed(2)` of the binary64 product of the size in points and 0.3527778,
within `2^-51` (relative) of the exact product, whatever the scale, canvas and
pixels are. 72 pixels at scale 1, and 72 points, give 25.40. The unrounded
pixel-to-millimetre value at scale `S / 2` is exactly twice that at scale `S`
(the exponent range of binary64 is not bounded here). -/
theorem millimetre_conversion_binary64 (bleedSize : JSNumber) (pageNum : Nat)
    (page : RenderedPage) (hS : 0 < page.scale) :
    (analyzeRendered bleedSize pageNum page).margins =
      { top := toFixed2 (pxToMm page.scale
          (detectMargins page.data page.width page.height).top)
        bottom := toFixed2 (pxToMm page.scale
          (detectMargins page.data page.width page.height).bottom)
        left := toFixed2 (pxToMm page.scale
          (detectMargins page.data page.width page.height).left)
        right := toFixed2 (pxToMm page.scale
          (detectMargins page.data page.width page.height).right) } ∧
    (∀ px : Nat,
      |pxToMm page.scale px - (px : ℚ) / page.scale * (3527778 / 10000000)| ≤
        (px : ℚ) / page.scale * (3527778 / 10000000) / 2251799813685248 ∧
      0 ≤ pxToMm page.scale px) ∧
    (∀ x : ℚ, ((toFixed2 x).neg = true ↔ x < 0) ∧
      ((toFixed2 x).cents : ℚ) ≤ |x| * 100 + 1 / 2 ∧
      |x| * 100 + 1 / 2 < ((toFixed2 x).cents : ℚ) + 1) ∧
    (∀ (scale : ℚ) (width height : Nat) (data : List Nat),
      (analyzeRendered bleedSize pageNum
          { page with scale := scale, width := width, height := height,
                      data := data }).pageWidth =
        toFixed2 (numMul (numSub page.view2 page.view0) mmPerPoint) ∧
      (analyzeRendered bleedSize pageNum
          { page with scale := scale, width := width, height := height,
                      data := data }).pageHeight =
        toFixed2 (numMul (numSub page.view3 page.view1) mmPerPoint)) ∧
    (∀ p : ℚ, |numMul p mmPerPoint - p * (3527778 / 10000000)| ≤
      |p| * (3527778 / 10000000) / 2251799813685248) ∧
    toFixed2 (pxToMm 1 72) = ⟨false, 2540⟩ ∧
    toFixed2 (numMul 72 mmPerPoint) = ⟨false, 2540⟩ ∧
    (∀ px : Nat, pxToMm (page.scale / 2) px = 2 * pxToMm page.scale px) := by
  have h72 : toFixed2 (numMul 72 mmPerPoint) = ⟨false, 2540⟩ := by
    rw [numMul_72_mmPerPoint]
    exact toFixed2_eq_of (by norm_num) (by norm_num) (by norm_num)
  have h72px : pxToMm 1 72 = numMul 72 mmPerPoint := by
    unfold pxToMm numDiv
    rw [show (((72 : ℕ) : ℚ) / 1) = 72 by norm_num, roundDouble_72]
  have hfix : ∀ x : ℚ, ((toFixed2 x).neg = true ↔ x < 0) ∧
      ((toFixed2 x).cents : ℚ) ≤ |x| * 100 + 1 / 2 ∧
      |x| * 100 + 1 / 2 < ((toFixed2 x).cents : ℚ) + 1 := by
    intro x
    have h0 : (0 : ℚ) ≤ |x| * 100 + 1 / 2 := by
      have := abs_nonneg x
      linarith
    have hn : (toFixed2 x).neg = decide (x < 0) := rfl
    have hc : (toFixed2 x).cents = ⌊|x| * 100 + 1 / 2⌋₊ := rfl
    rw [hn, hc]
    exact ⟨by simp, Nat.floor_le h0, Nat.lt_floor_add_one _⟩
  refine ⟨rfl, fun px => ⟨abs_pxToMm_sub_le hS px, pxToMm_nonneg hS px⟩, hfix,
    fun _ _ _ _ => ⟨rfl, rfl⟩, fun p => ?_, ?_, h72, fun px => pxToMm_half_scale page.scale px⟩
  · have h := abs_numMul_mmPerPoint_sub_le p
    have a0 := abs_nonneg p
    linarith
  · rw [h72px]
    exact h72

/-- Witness for C9 (amended): the sample page at scale 2, whose top margin of
2 pixels is stored as `0.35`. -/
theorem millimetre_conversion_binary64_witness :
    0 < samplePage.scale ∧
    (analyzeRendered (.fin 3) 1 samplePage).margins.top = ⟨false, 35⟩ ∧
    |pxToMm samplePage.scale 2 - ((2 : ℕ) : ℚ) / samplePage.scale * (3527778 / 10000000)| ≤
      ((2 : ℕ) : ℚ) / samplePage.scale * (3527778 / 10000000) / 2251799813685248 ∧
    pxToMm (samplePage.scale / 2) 2 = 2 * pxToMm samplePage.scale 2 := by
  have hS : 0 < samplePage.scale := by
    show (0 : ℚ) < 2
    norm_num
  have h := millimetre_conversion_binary64 (.fin 3) 1 samplePage hS
  refine ⟨hS, ?_, (h.2.1 2).1, h.2.2.2.2.2.2.2 2⟩
  have hm := congrArg Margins.top h.1
  rw [hm, detectMargins_samplePage, show samplePage.scale = 2 from rfl, pxToMm_two_two]
  exact toFixed2_eq_of (by norm_num) (by norm_num) (by norm_num)

/-! ## Page reordering -/

theorem mathMax_perm {l1 l2 : List ℚ} (hp : l1.Perm l2) : mathMax l1 = mathMax l2 := by
  cases l1 with
  | nil => rw [hp.nil_eq]
  | cons a as =>
    cases l2 with
    | nil => exact absurd hp.eq_nil (by simp)
    | cons b bs =>
      have hset : {x | x ∈ a :: as} = {x | x ∈ b :: bs} := by
        ext x
        exact hp.mem_iff
      have h1 := foldl_max_isGreatest a as
      have h2 := foldl_max_isGreatest b bs
      rw [hset] at h1
      simp only [mathMax]
      rw [h1.unique h2]

theorem mathMin_perm {l1 l2 : List ℚ} (hp : l1.Perm l2) : mathMin l1 = mathMin l2 := by
  cases l1 with
  | nil => rw [hp.nil_eq]
  | cons a as =>
    cases l2 with
    | nil => exact absurd hp.eq_nil (by simp)
    | cons b bs =>
      have hset : {x | x ∈ a :: as} = {x | x ∈ b :: bs} := by
        ext x
        exact hp.mem_iff
      have h1 := foldl_min_isLeast a as
      have h2 := foldl_min_isLeast b bs
      rw [hset] at h1
      simp only [mathMin]
      rw [h1.unique h2]

theorem displayUniformityReport_stats (s : Inspector) (e : Edge) :
    e.stats (displayUniformityReport s).stats =
      calculateStats (edgeValues e s.analysisResults) := by
  cases e <;> rfl

theorem numAdd_zero_zero : numAdd 0 0 = 0 := by
  unfold numAdd
  rw [add_zero, roundDouble_zero]

theorem parseFixed2_zero : parseFixed2 ⟨false, 0⟩ = 0 := by
  rw [parseFixed2_nonneg_cents, show (((0 : ℕ) : ℚ) / 100) = 0 by norm_num, roundDouble_zero]

theorem parseFixed2_18 : parseFixed2 ⟨false, 18⟩ = 3242591731706757 / 18014398509481984 := by
  rw [parseFixed2_nonneg_cents, show (((18 : ℕ) : ℚ) / 100) = 18 / 100 by norm_num]
  exact roundDouble_18_cents

theorem parseFixed2_35 : parseFixed2 ⟨false, 35⟩ = 3152519739159347 / 9007199254740992 := by
  rw [parseFixed2_nonneg_cents, show (((35 : ℕ) : ℚ) / 100) = 35 / 100 by norm_num]
  exact roundDouble_35_cents

theorem parseFixed2_265 : parseFixed2 ⟨false, 265⟩ = 5967269506265907 / 2251799813685248 := by
  rw [parseFixed2_nonneg_cents, show (((265 : ℕ) : ℚ) / 100) = 265 / 100 by norm_num]
  exact roundDouble_265_cents

/-- Summing 0, 0.18, 0.35, 2.65 from the left and dividing by 4 prints `0.79`. -/
theorem calculateStats_avg_ascending :
    (calculateStats [0, 3242591731706757 / 18014398509481984,
      3152519739159347 / 9007199254740992, 5967269506265907 / 2251799813685248]).avg =
      .dec ⟨false, 79⟩ := by
  have e2 : numAdd 0 (3242591731706757 / 18014398509481984) =
      3242591731706757 / 18014398509481984 := by
    unfold numAdd
    rw [zero_add]
    exact roundDouble_18_cents_value
  have e3 : numAdd (3242591731706757 / 18014398509481984)
      (3152519739159347 / 9007199254740992) = 2386907802506363 / 4503599627370496 := by
    unfold numAdd
    rw [show (3242591731706757 / 18014398509481984 : ℚ) + 3152519739159347 / 9007199254740992
      = 9547631210025451 / 18014398509481984 by norm_num]
    exact roundDouble_sum_18_35
  have e4 : numAdd (2386907802506363 / 4503599627370496)
      (5967269506265907 / 2251799813685248) = 447545212969943 / 140737488355328 := by
    unfold numAdd
    rw [show (2386907802506363 / 4503599627370496 : ℚ) + 5967269506265907 / 2251799813685248
      = 14321446815038177 / 4503599627370496 by norm_num]
    exact roundDouble_sum_18_35_265
  have e5 : numDiv (447545212969943 / 140737488355328) ((4 : ℕ) : ℚ) =
      447545212969943 / 562949953421312 := by
    unfold numDiv
    rw [show (447545212969943 / 140737488355328 : ℚ) / ((4 : ℕ) : ℚ)
      = 447545212969943 / 562949953421312 by norm_num]
    exact roundDouble_avg_18_35_265
  simp only [calculateStats, List.foldl_cons, List.foldl_nil, List.length_cons, List.length_nil,
    numAdd_zero_zero, e2, e3, e4, divLength]
  rw [if_neg (by decide), e5]
  simp only [jsToFixed2, NumStr.dec.injEq]
  exact toFixed2_eq_of (by norm_num) (by norm_num) (by norm_num)

/-- Summing 0, 0.18, 2.65, 0.35 from the left and dividing by 4 prints `0.80`. -/
theorem calculateStats_avg_swapped :
    (calculateStats [0, 3242591731706757 / 18014398509481984,
      5967269506265907 / 2251799813685248, 3152519739159347 / 9007199254740992]).avg =
      .dec ⟨false, 80⟩ := by
  have e2 : numAdd 0 (3242591731706757 / 18014398509481984) =
      3242591731706757 / 18014398509481984 := by
    unfold numAdd
    rw [zero_add]
    exact roundDouble_18_cents_value
  have e3 : numAdd (3242591731706757 / 18014398509481984)
      (5967269506265907 / 2251799813685248) = 1593148368182313 / 562949953421312 := by
    unfold numAdd
    rw [show (3242591731706757 / 18014398509481984 : ℚ) + 5967269506265907 / 2251799813685248
      = 50980747781834013 / 18014398509481984 by norm_num]
    exact roundDouble_sum_18_265
  have e4 : numAdd (1593148368182313 / 562949953421312)
      (3152519739159347 / 9007199254740992) = 7160723407519089 / 2251799813685248 := by
    unfold numAdd
    rw [show (1593148368182313 / 562949953421312 : ℚ) + 3152519739159347 / 9007199254740992
      = 28642893630076355 / 9007199254740992 by norm_num]
    exact roundDouble_sum_18_265_35
  have e5 : numDiv (7160723407519089 / 2251799813685248) ((4 : ℕ) : ℚ) =
      7160723407519089 / 9007199254740992 := by
    unfold numDiv
    rw [show (7160723407519089 / 2251799813685248 : ℚ) / ((4 : ℕ) : ℚ)
      = 7160723407519089 / 9007199254740992 by norm_num]
    exact roundDouble_avg_18_265_35
  simp only [calculateStats, List.foldl_cons, List.foldl_nil, List.length_cons, List.length_nil,
    numAdd_zero_zero, e2, e3, e4, divLength]
  rw [if_neg (by decide), e5]
  simp only [jsToFixed2, NumStr.dec.injEq]
  exact toFixed2_eq_of (by norm_num) (by norm_num) (by norm_num)

/-- Claim C10, counterexample. Four pages with top margins 0.00, 0.18, 0.35 and
2.65 mm have the top average `0.79`; with the last two pages swapped the
average is `0.80`, because the sum is accumulated in page order in binary64. -/
theorem average_depends_on_page_order :
    List.Perm
      [resultWithMargins 1 0 1000 1000 1000, resultWithMargins 2 18 1000 1000 1000,
        resultWithMargins 3 35 1000 1000 1000, resultWithMargins 4 265 1000 1000 1000]
      [resultWithMargins 1 0 1000 1000 1000, resultWithMargins 2 18 1000 1000 1000,
        resultWithMargins 4 265 1000 1000 1000, resultWithMargins 3 35 1000 1000 1000] ∧
    (displayUniformityReport (inspectorWith
      [resultWithMargins 1 0 1000 1000 1000, resultWithMargins 2 18 1000 1000 1000,
        resultWithMargins 3 35 1000 1000 1000, resultWithMargins 4 265 1000 1000 1000]
      (.fin 5))).stats.top.avg = .dec ⟨false, 79⟩ ∧
    (displayUniformityReport (inspectorWith
      [resultWithMargins 1 0 1000 1000 1000, resultWithMargins 2 18 1000 1000 1000,
        resultWithMargins 4 265 1000 1000 1000, resultWithMargins 3 35 1000 1000 1000]
      (.fin 5))).stats.top.avg = .dec ⟨false, 80⟩ := by
  refine ⟨?_, ?_, ?_⟩
  · exact List.Perm.cons _ (List.Perm.cons _ (List.Perm.swap _ _ _))
  · simp only [displayUniformityReport, inspectorWith, resultWithMargins, List.map_cons,
      List.map_nil, parseFixed2_zero, parseFixed2_18, parseFixed2_35, parseFixed2_265]
    exact calculateStats_avg_ascending
  · simp only [displayUniformityReport, inspectorWith, resultWithMargins, List.map_cons,
      List.map_nil, parseFixed2_zero, parseFixed2_18, parseFixed2_35, parseFixed2_265]
    exact calculateStats_avg_swapped

/-- Claim C10, amended. For every list of page results and every permutation of
it (same `marginThreshold`), the `min` and `max` computed by `calculateStats`
for each edge, the four edge verdicts and the overall verdict are the same for
both lists. -/
theorem uniformity_invariant_under_reordering (s1 s2 : Inspector)
    (hp : s1.analysisResults.Perm s2.analysisResults)
    (ht : s1.marginThreshold = s2.marginThreshold) :
    (∀ e : Edge,
      (e.stats (displayUniformityReport s1).stats).min =
        (e.stats (displayUniformityReport s2).stats).min ∧
      (e.stats (displayUniformityReport s1).stats).max =
        (e.stats (displayUniformityReport s2).stats).max ∧
      e.verdict (displayUniformityReport s1).uniformityStatus =
        e.verdict (displayUniformityReport s2).uniformityStatus) ∧
    (displayUniformityReport s1).allUniform = (displayUniformityReport s2).allUniform := by
  have hv : ∀ e : Edge,
      (edgeValues e s1.analysisResults).Perm (edgeValues e s2.analysisResults) :=
    fun e => hp.map _
  have hverd : ∀ e : Edge, e.verdict (displayUniformityReport s1).uniformityStatus =
      e.verdict (displayUniformityReport s2).uniformityStatus := by
    intro e
    rw [displayUniformityReport_verdict, displayUniformityReport_verdict]
    unfold isUniform
    rw [mathMax_perm (hv e), mathMin_perm (hv e), ht]
  refine ⟨fun e => ⟨?_, ?_, hverd e⟩, ?_⟩
  · rw [displayUniformityReport_stats, displayUniformityReport_stats]
    simp only [calculateStats]
    rw [mathMin_perm (hv e)]
  · rw [displayUniformityReport_stats, displayUniformityReport_stats]
    simp only [calculateStats]
    rw [mathMax_perm (hv e)]
  · rw [Bool.eq_iff_iff, displayUniformityReport_allUniform, displayUniformityReport_allUniform]
    constructor
    · intro h e
      rw [← hverd e]
      exact h e
    · intro h e
      rw [hverd e]
      exact h e

/-- Witness for C10 (amended): the four pages above and the list with the last
two swapped have the same overall verdict. -/
theorem uniformity_invariant_under_reordering_witness :
    List.Perm
      (inspectorWith
        [resultWithMargins 1 0 1000 1000 1000, resultWithMargins 2 18 1000 1000 1000,
          resultWithMargins 3 35 1000 1000 1000, resultWithMargins 4 265 1000 1000 1000]
        (.fin 5)).analysisResults
      (inspectorWith
        [resultWithMargins 1 0 1000 1000 1000, resultWithMargins 2 18 1000 1000 1000,
          resultWithMargins 4 265 1000 1000 1000, resultWithMargins 3 35 1000 1000 1000]
        (.fin 5)).analysisResults ∧
    (displayUniformityReport (inspectorWith
      [resultWithMargins 1 0 1000 1000 1000, resultWithMargins 2 18 1000 1000 1000,
        resultWithMargins 3 35 1000 1000 1000, resultWithMargins 4 265 1000 1000 1000]
      (.fin 5))).allUniform =
    (displayUniformityReport (inspectorWith
      [resultWithMargins 1 0 1000 1000 1000, resultWithMargins 2 18 1000 1000 1000,
        resultWithMargins 4 265 1000 1000 1000, resultWithMargins 3 35 1000 1000 1000]
      (.fin 5))).allUniform :=
  have hp : List.Perm
      (inspectorWith
        [resultWithMargins 1 0 1000 1000 1000, resultWithMargins 2 18 1000 1000 1000,
          resultWithMargins 3 35 1000 1000 1000, resultWithMargins 4 265 1000 1000 1000]
        (.fin 5)).analysisResults
      (inspectorWith
        [resultWithMargins 1 0 1000 1000 1000, resultWithMargins 2 18 1000 1000 1000,
          resultWithMargins 4 265 1000 1000 1000, resultWithMargins 3 35 1000 1000 1000]
        (.fin 5)).analysisResults :=
    List.Perm.cons _ (List.Perm.cons _ (List.Perm.swap _ _ _))
  ⟨hp, (uniformity_invariant_under_reordering
    (inspectorWith
      [resultWithMargins 1 0 1000 1000 1000, resultWithMargins 2 18 1000 1000 1000,
        resultWithMargins 3 35 1000 1000 1000, resultWithMargins 4 265 1000 1000 1000]
      (.fin 5))
    (inspectorWith
      [resultWithMargins 1 0 1000 1000 1000, resultWithMargins 2 18 1000 1000 1000,
        resultWithMargins 4 265 1000 1000 1000, resultWithMargins 3 35 1000 1000 1000]
      (.fin 5)) hp rfl).2⟩

/-! ## Exports -/

theorem splitOnChar_ne_nil (sep : Char) (xs : List Char) : splitOnChar sep xs ≠ [] := by
  cases xs with
  | nil => simp [splitOnChar]
  | cons c cs =>
    unfold splitOnChar
    split_ifs
    · simp
    · cases splitOnChar sep cs <;> simp

theorem splitOnChar_of_not_mem (sep : Char) (xs : List Char) (h : sep ∉ xs) :
    splitOnChar sep xs = [xs] := by
  induction xs with
  | nil => rfl
  | cons c cs ih =>
    have hc : c ≠ sep := fun e => h (by simp [e])
    have hcs : sep ∉ cs := fun e => h (List.mem_cons_of_mem _ e)
    unfold splitOnChar
    rw [if_neg hc, ih hcs]

theorem splitOnChar_append_sep (sep : Char) (xs ys : List Char) (h : sep ∉ xs) :
    splitOnChar sep (xs ++ sep :: ys) = xs :: splitOnChar sep ys := by
  induction xs with
  | nil => simp [splitOnChar]
  | cons c cs ih =>
    have hc : c ≠ sep := fun e => h (by simp [e])
    have hcs : sep ∉ cs := fun e => h (List.mem_cons_of_mem _ e)
    rw [List.cons_append, splitOnChar, if_neg hc, ih hcs]

/-- Pieces free of the separator are recovered from their join. -/
theorem splitOnChar_joinWith (sep : Char) (pieces : List (List Char)) (hne : pieces ≠ [])
    (h : ∀ p, p ∈ pieces → sep ∉ p) : splitOnChar sep (joinWith sep pieces) = pieces := by
  induction pieces with
  | nil => exact absurd rfl hne
  | cons p ps ih =>
    cases ps with
    | nil => exact splitOnChar_of_not_mem sep p (h p (List.mem_cons_self _ _))
    | cons q qs =>
      show splitOnChar sep (p ++ sep :: joinWith sep (q :: qs)) = _
      rw [splitOnChar_append_sep sep p _ (h p (List.mem_cons_self _ _)),
        ih (by simp) (fun x hx => h x (List.mem_cons_of_mem _ hx))]

theorem not_mem_joinWith (c sep : Char) (hcs : c ≠ sep) (pieces : List (List Char))
    (h : ∀ p, p ∈ pieces → c ∉ p) : c ∉ joinWith sep pieces := by
  induction pieces with
  | nil => simp [joinWith]
  | cons p ps ih =>
    cases ps with
    | nil => exact h p (List.mem_cons_self _ _)
    | cons q qs =>
      show c ∉ p ++ sep :: joinWith sep (q :: qs)
      intro hmem
      rcases List.mem_append.mp hmem with h1 | h1
      · exact h p (List.mem_cons_self _ _) h1
      · rcases List.mem_cons.mp h1 with h2 | h2
        · exact hcs h2
        · exact ih (fun x hx => h x (List.mem_cons_of_mem _ hx)) h2

/-- A character that is neither the column nor the row delimiter. -/
theorem digitChar_plain (d : Nat) (hd : d < 10) :
    Nat.digitChar d ≠ ',' ∧ Nat.digitChar d ≠ '\n' := by
  interval_cases d <;> decide

theorem toDigitsCore_plain (fuel : Nat) :
    ∀ (n : Nat) (ds : List Char), (∀ c, c ∈ ds → c ≠ ',' ∧ c ≠ '\n') →
      ∀ c, c ∈ Nat.toDigitsCore 10 fuel n ds → c ≠ ',' ∧ c ≠ '\n' := by
  induction fuel with
  | zero =>
    intro n ds hds c hc
    exact hds c hc
  | succ f ih =>
    intro n ds hds c hc
    have hcons : ∀ x, x ∈ Nat.digitChar (n % 10) :: ds → x ≠ ',' ∧ x ≠ '\n' := by
      intro x hx
      rcases List.mem_cons.mp hx with h1 | h1
      · rw [h1]
        exact digitChar_plain _ (Nat.mod_lt _ (by decide))
      · exact hds x h1
    unfold Nat.toDigitsCore at hc
    simp only at hc
    split_ifs at hc
    · exact hcons c hc
    · exact ih _ _ hcons c hc

theorem toString_nat_plain (n : Nat) :
    ∀ c, c ∈ (toString n).toList → c ≠ ',' ∧ c ≠ '\n' := by
  intro c hc
  have : (toString n).toList = Nat.toDigitsCore 10 (n + 1) n [] := rfl
  rw [this] at hc
  exact toDigitsCore_plain (n + 1) n [] (fun x hx => absurd hx (List.not_mem_nil x)) c hc

theorem boolText_plain (b : Bool) : ∀ c, c ∈ (boolText b).toList → c ≠ ',' ∧ c ≠ '\n' := by
  cases b <;> decide

theorem fixed2_text_plain (f : Fixed2) :
    ∀ c, c ∈ f.text.toList → c ≠ ',' ∧ c ≠ '\n' := by
  intro c hc
  unfold Fixed2.text at hc
  simp only [String.toList, String.data_append, List.mem_append] at hc
  rcases hc with (((h | h) | h) | h) | h
  · cases hn : f.neg
    · rw [hn] at h
      simp at h
    · rw [hn] at h
      simp only [if_true] at h
      have hc : c = '-' := by simpa using h
      rw [hc]
      decide
  · exact toString_nat_plain _ c h
  · have hc : c = '.' := by simpa using h
    rw [hc]
    decide
  · exact toString_nat_plain _ c h
  · exact toString_nat_plain _ c h

theorem csvRow_toList (r : PageResult) :
    (csvRow r).toList = rowChars (csvFields r) ++ ['\n'] := by
  simp only [csvRow, csvFields, rowChars, joinWith, List.map_cons, List.map_nil, String.toList,
    String.data_append, List.append_assoc, List.cons_append, List.nil_append]

theorem csvHeader_toList : csvHeader.toList = rowChars csvHeaderFields ++ ['\n'] := by
  rfl

theorem foldl_csvRow_toList (results : List PageResult) :
    ∀ acc : String,
      (results.foldl (fun csv r => csv ++ csvRow r) acc).toList =
        acc.toList ++ terminated (results.map (fun r => rowChars (csvFields r))) := by
  induction results with
  | nil =>
    intro acc
    simp [terminated]
  | cons r rs ih =>
    intro acc
    rw [List.foldl_cons, ih, List.map_cons]
    simp only [String.toList, String.data_append, terminated, List.append_assoc]
    have := csvRow_toList r
    simp only [String.toList] at this
    rw [this]
    simp

theorem exportCSV_toList (s : Inspector) :
    (exportCSV s).toList =
      terminated (rowChars csvHeaderFields ::
        s.analysisResults.map (fun r => rowChars (csvFields r))) := by
  unfold exportCSV
  rw [foldl_csvRow_toList, csvHeader_toList]
  simp [terminated]

theorem splitOnChar_terminated (lines : List (List Char))
    (h : ∀ l, l ∈ lines → '\n' ∉ l) :
    splitOnChar '\n' (terminated lines) = lines ++ [[]] := by
  induction lines with
  | nil => rfl
  | cons l ls ih =>
    show splitOnChar '\n' (l ++ '\n' :: terminated ls) = _
    rw [splitOnChar_append_sep _ _ _ (h l (List.mem_cons_self _ _)),
      ih (fun x hx => h x (List.mem_cons_of_mem _ hx))]
    rfl

theorem csvHeaderFields_plain :
    ∀ f, f ∈ csvHeaderFields → ∀ c, c ∈ f.toList → c ≠ ',' ∧ c ≠ '\n' := by
  decide

theorem csvFields_plain (r : PageResult) :
    ∀ f, f ∈ csvFields r → ∀ c, c ∈ f.toList → c ≠ ',' ∧ c ≠ '\n' := by
  intro f hf
  simp only [csvFields, List.mem_cons, List.mem_singleton, List.not_mem_nil, or_false] at hf
  rcases hf with h | h | h | h | h | h | h | h | h | h | h | h | h <;> rw [h]
  · exact toString_nat_plain _
  all_goals first | exact fixed2_text_plain _ | exact boolText_plain _

/-- A row whose fields hold neither delimiter splits back into its fields and
holds no newline. -/
theorem rowChars_spec (fields : List String) (hne : fields ≠ [])
    (h : ∀ f, f ∈ fields → ∀ c, c ∈ f.toList → c ≠ ',' ∧ c ≠ '\n') :
    splitOnChar ',' (rowChars fields) = fields.map String.toList ∧
      '\n' ∉ rowChars fields := by
  constructor
  · apply splitOnChar_joinWith
    · simpa using hne
    · intro p hp hmem
      obtain ⟨f, hf, rfl⟩ := List.mem_map.mp hp
      exact (h f hf _ hmem).1 rfl
  · apply not_mem_joinWith _ _ (by decide)
    intro p hp hmem
    obtain ⟨f, hf, rfl⟩ := List.mem_map.mp hp
    exact (h f hf _ hmem).2 rfl

/-- Claim C11. The text built by `exportCSV` for a report of `N` pages is
`N + 1` newline-terminated rows, the header first, then one row per page in
report order; the header and every page row consist of exactly 13
comma-separated fields, for a page row in the order page, width, height, top,
bottom, left, right margin, trim width, trim height, top, bottom, left, right
bleed flag. The array `pages` built by `exportJSON` has `N` entries and entry
`i` carries the `pageNumber` of the `i`-th page result. -/
theorem export_shapes (s : Inspector) (now : String) :
    (exportCSV s).toList =
      terminated (rowChars csvHeaderFields ::
        s.analysisResults.map (fun r => rowChars (csvFields r))) ∧
    splitOnChar '\n' (exportCSV s).toList =
      (rowChars csvHeaderFields ::
        s.analysisResults.map (fun r => rowChars (csvFields r))) ++ [[]] ∧
    (rowChars csvHeaderFields ::
      s.analysisResults.map (fun r => rowChars (csvFields r))).length =
        s.analysisResults.length + 1 ∧
    (csvHeaderFields.length = 13 ∧
      splitOnChar ',' (rowChars csvHeaderFields) = csvHeaderFields.map String.toList) ∧
    (∀ r : PageResult, (csvFields r).length = 13 ∧
      splitOnChar ',' (rowChars (csvFields r)) = (csvFields r).map String.toList) ∧
    (exportJSON s now).pages.length = s.analysisResults.length ∧
    (exportJSON s now).pages.map (fun p => p.pageNumber) =
      s.analysisResults.map (fun r => r.pageNumber) := by
  have hlines : ∀ l, l ∈ rowChars csvHeaderFields ::
      s.analysisResults.map (fun r => rowChars (csvFields r)) → '\n' ∉ l := by
    intro l hl
    rcases List.mem_cons.mp hl with h1 | h1
    · rw [h1]
      exact (rowChars_spec csvHeaderFields (by decide) csvHeaderFields_plain).2
    · obtain ⟨r, -, rfl⟩ := List.mem_map.mp h1
      exact (rowChars_spec (csvFields r) (by simp [csvFields]) (csvFields_plain r)).2
  refine ⟨exportCSV_toList s, ?_, by simp, ⟨rfl, ?_⟩, fun r => ⟨rfl, ?_⟩, by simp [exportJSON],
    by simp [exportJSON]⟩
  · rw [exportCSV_toList, splitOnChar_terminated _ hlines]
  · exact (rowChars_spec csvHeaderFields (by decide) csvHeaderFields_plain).1
  · exact (rowChars_spec (csvFields r) (by simp [csvFields]) (csvFields_plain r)).1

set_option maxRecDepth 100000 in
/-- The CSV text of a one-page report, character by character. -/
theorem exportCSV_sample :
    exportCSV (inspectorWith [resultWithMargins 1 1000 1234 5 1000] (.fin 5)) =
      "Page,Width (mm),Height (mm),Top Margin (mm),Bottom Margin (mm),Left Margin (mm),Right Margin (mm),Trim Width (mm),Trim Height (mm),Has Top Bleed,Has Bottom Bleed,Has Left Bleed,Has Right Bleed\n1,210.00,297.00,10.00,12.34,0.05,10.00,210.00,297.00,false,false,false,false\n" := by
  rfl

/-! ## Opposing margins -/

/-- An ascending and a descending scan of the same `n > 0` positions: the
offset found from the front plus the offset found from the back is at most
`n - 1`. -/
theorem scan_offsets_le (p : Nat → Bool) (n : Nat) (hn : 0 < n) :
    (match (List.range n).find? p with
      | some y => y
      | none => 0) +
    (match (List.range n).reverse.find? p with
      | some y => n - y - 1
      | none => 0) ≤ n - 1 := by
  have hu := find_range_spec p n
  have hd := find_range_reverse_spec p n
  cases hf : (List.range n).find? p with
  | none =>
    cases hg : (List.range n).reverse.find? p with
    | none => simp
    | some b =>
      show 0 + (n - b - 1) ≤ n - 1
      omega
  | some a =>
    rw [hf] at hu
    cases hg : (List.range n).reverse.find? p with
    | none =>
      show a + 0 ≤ n - 1
      omega
    | some b =>
      rw [hg] at hd
      have hab : a ≤ b := by
        by_contra hlt
        have h1 := hu.2.2 b (by omega)
        rw [hd.2.1] at h1
        exact Bool.noConfusion h1
      show a + (n - b - 1) ≤ n - 1
      omega

theorem top_add_bottom_le (data : List Nat) (w h : Nat) (hh : 0 < h) :
    topMargin data w h + bottomMargin data w h ≤ h - 1 :=
  scan_offsets_le (fun y => rowHit data w y) h hh

theorem left_add_right_le (data : List Nat) (w h : Nat) (hw : 0 < w) :
    leftMargin data w h + rightMargin data w h ≤ w - 1 :=
  scan_offsets_le (fun x => colHit data w h x) w hw

theorem mmPerPoint_pos : 0 < mmPerPoint := by
  rw [mmPerPoint_eq]
  norm_num

theorem pxToMm_le (scale : ℚ) (hS : 0 < scale) (px : Nat) :
    pxToMm scale px ≤
      (px : ℚ) * (mmPerPoint / scale) *
        ((9007199254740993 / 9007199254740992) * (9007199254740993 / 9007199254740992)) := by
  have hk := mmPerPoint_pos
  have hq : 0 ≤ (px : ℚ) / scale := div_nonneg (Nat.cast_nonneg px) (le_of_lt hS)
  have h1 := roundDouble_le_mul hq
  have h0 := roundDouble_nonneg hq
  have h2 := roundDouble_le_mul (mul_nonneg h0 (le_of_lt hk))
  have h3 : roundDouble ((px : ℚ) / scale) * mmPerPoint ≤
      (px : ℚ) / scale * (9007199254740993 / 9007199254740992) * mmPerPoint :=
    mul_le_mul_of_nonneg_right h1 (le_of_lt hk)
  have h4 : roundDouble ((px : ℚ) / scale) * mmPerPoint *
      (9007199254740993 / 9007199254740992) ≤
      (px : ℚ) / scale * (9007199254740993 / 9007199254740992) * mmPerPoint *
        (9007199254740993 / 9007199254740992) :=
    mul_le_mul_of_nonneg_right h3 (by norm_num)
  unfold pxToMm numMul numDiv
  calc roundDouble (roundDouble ((px : ℚ) / scale) * mmPerPoint)
      ≤ roundDouble ((px : ℚ) / scale) * mmPerPoint *
          (9007199254740993 / 9007199254740992) := h2
    _ ≤ (px : ℚ) / scale * (9007199254740993 / 9007199254740992) * mmPerPoint *
          (9007199254740993 / 9007199254740992) := h4
    _ = (px : ℚ) * (mmPerPoint / scale) *
          ((9007199254740993 / 9007199254740992) * (9007199254740993 / 9007199254740992)) := by
        field_simp
        ring

/-- The trim extent computed in binary64 is positive when the two opposing
pixel margins leave at least one pixel of a buffer that is at most
`2^32` pixels wide and not wider than the page at the render scale. -/
theorem trim_extent_pos (pagePoints scale : ℚ) (l r w : Nat) (hS : 0 < scale)
    (hw : (w : ℚ) ≤ pagePoints * scale) (hlr : l + r ≤ w - 1) (hw0 : 0 < w)
    (hb : w ≤ 4294967296) :
    0 < numSub (numSub (numMul pagePoints mmPerPoint) (pxToMm scale l)) (pxToMm scale r) := by
  have hk := mmPerPoint_pos
  have hX : 0 < mmPerPoint / scale := div_pos hk hS
  have hlr2 : ((l : ℚ) + r + 1) ≤ w := by
    have : l + r + 1 ≤ w := by omega
    exact_mod_cast this
  have hbq : (w : ℚ) ≤ 4294967296 := by exact_mod_cast hb
  have hl0 : (0 : ℚ) ≤ l := Nat.cast_nonneg l
  have hr0 : (0 : ℚ) ≤ r := Nat.cast_nonneg r
  have hP : 0 < pagePoints * scale := by linarith
  have hpp : 0 < pagePoints := by
    by_contra hneg
    have : pagePoints * scale ≤ 0 :=
      mul_nonpos_of_nonpos_of_nonneg (not_lt.mp hneg) (le_of_lt hS)
    linarith
  have hA := mul_le_roundDouble (mul_nonneg (le_of_lt hpp) (le_of_lt hk))
  have hAeq : pagePoints * mmPerPoint = pagePoints * scale * (mmPerPoint / scale) := by
    field_simp
    ring
  rw [hAeq] at hA
  have hB := pxToMm_le scale hS l
  have hC := pxToMm_le scale hS r
  have hC0 := pxToMm_nonneg hS r
  -- the bracket is a linear form in the pixel counts
  have hbr : 0 < (9007199254740991 / 9007199254740992) *
      ((pagePoints * scale) * (9007199254740991 / 9007199254740992) -
        (l : ℚ) * ((9007199254740993 / 9007199254740992) *
          (9007199254740993 / 9007199254740992))) -
      (r : ℚ) * ((9007199254740993 / 9007199254740992) *
          (9007199254740993 / 9007199254740992)) := by
    linarith
  have hprod := mul_pos hbr hX
  have hD : (numMul pagePoints mmPerPoint - pxToMm scale l) *
      (9007199254740991 / 9007199254740992) - pxToMm scale r > 0 := by
    unfold numMul
    rw [hAeq]
    nlinarith [hprod, hA, hB, hC]
  have hD0 : 0 ≤ numMul pagePoints mmPerPoint - pxToMm scale l := by
    by_contra hneg
    have hneg2 := not_le.mp hneg
    nlinarith [hD, hC0, hneg2]
  have hfl := mul_le_roundDouble hD0
  unfold numSub
  apply roundDouble_pos
  show 0 < roundDouble (numMul pagePoints mmPerPoint - pxToMm scale l) - pxToMm scale r
  linarith

/-- Claim C12. For every pixel buffer of width `w > 0` and height `h > 0`,
blank or not, `detectMargins` returns `top + bottom ≤ h - 1` and
`left + right ≤ w - 1`, so each margin lies in `[0, dimension - 1]`. Hence,
when the buffer is not larger than the page size in points times the render
scale, the trim width and trim height that `analyzePage` computes before
rounding to 2 decimals are strictly positive. The canvas width and height are
`unsigned long` attributes (at most `2^32`); arithmetic is binary64. -/
theorem margins_never_overlap (page : RenderedPage) (hw : 0 < page.width)
    (hh : 0 < page.height) :
    ((detectMargins page.data page.width page.height).top +
        (detectMargins page.data page.width page.height).bottom ≤ page.height - 1 ∧
      (detectMargins page.data page.width page.height).left +
        (detectMargins page.data page.width page.height).right ≤ page.width - 1) ∧
    ((detectMargins page.data page.width page.height).top ≤ page.height - 1 ∧
      (detectMargins page.data page.width page.height).bottom ≤ page.height - 1 ∧
      (detectMargins page.data page.width page.height).left ≤ page.width - 1 ∧
      (detectMargins page.data page.width page.height).right ≤ page.width - 1) ∧
    (∀ (bleedSize : JSNumber) (pageNum : Nat),
      (analyzeRendered bleedSize pageNum page).trimArea =
        { width := toFixed2 (trimWidthMm page), height := toFixed2 (trimHeightMm page) }) ∧
    (0 < page.scale → page.width ≤ 4294967296 →
      (page.width : ℚ) ≤ numSub page.view2 page.view0 * page.scale →
      0 < trimWidthMm page) ∧
    (0 < page.scale → page.height ≤ 4294967296 →
      (page.height : ℚ) ≤ numSub page.view3 page.view1 * page.scale →
      0 < trimHeightMm page) := by
  have hv := top_add_bottom_le page.data page.width page.height hh
  have hz := left_add_right_le page.data page.width page.height hw
  refine ⟨⟨hv, hz⟩, ⟨?_, ?_, ?_, ?_⟩, fun _ _ => rfl, ?_, ?_⟩
  · exact le_trans (Nat.le_add_right _ _) hv
  · exact le_trans (Nat.le_add_left _ _) hv
  · exact le_trans (Nat.le_add_right _ _) hz
  · exact le_trans (Nat.le_add_left _ _) hz
  · intro hS hb hfit
    exact trim_extent_pos _ _ _ _ _ hS hfit hz hw hb
  · intro hS hb hfit
    exact trim_extent_pos _ _ _ _ _ hS hfit hv hh hb

/-- Witness for C12: the 3 × 4 sample page of 1.5 × 2 points at scale 2. -/
theorem margins_never_overlap_witness :
    (0 < samplePage.width ∧ 0 < samplePage.height) ∧
    (detectMargins samplePage.data samplePage.width samplePage.height).top +
      (detectMargins samplePage.data samplePage.width samplePage.height).bottom ≤
        samplePage.height - 1 ∧
    0 < trimWidthMm samplePage ∧ 0 < trimHeightMm samplePage := by
  have hw : 0 < samplePage.width := by decide
  have hh : 0 < samplePage.height := by decide
  have hS : 0 < samplePage.scale := by
    show (0 : ℚ) < 2
    norm_num
  have h := margins_never_overlap samplePage hw hh
  have fitW : (samplePage.width : ℚ) ≤
      numSub samplePage.view2 samplePage.view0 * samplePage.scale := by
    show ((3 : ℕ) : ℚ) ≤ numSub (3 / 2) 0 * 2
    unfold numSub
    rw [sub_zero, roundDouble_3_halves]
    norm_num
  have fitH : (samplePage.height : ℚ) ≤
      numSub samplePage.view3 samplePage.view1 * samplePage.scale := by
    show ((4 : ℕ) : ℚ) ≤ numSub 2 0 * 2
    unfold numSub
    rw [sub_zero, roundDouble_2]
    norm_num
  exact ⟨⟨hw, hh⟩, h.1.1, h.2.2.2.1 hS (by decide) fitW, h.2.2.2.2 hS (by decide) fitH⟩

end PDFMarginInspector
